import Mathlib

/-!
# gopsutil: disk (FreeBSD) and mem (Darwin, no cgo)

A shallow embedding of `mem/mem_darwin_nocgo.go` and `disk/disk_freebsd.go`.

Conventions of the embedding

* A Go `string` / `[]byte` is the list of its bytes (`GoString`).  String
  literals of the source are written `str "..."`, the UTF-8 bytes of the literal.
* `uint64` values are natural numbers; every `uint64` operation of the source
  that can wrap is followed by an explicit `% 2 ^ 64`.
* A Go function returning `(T, error)` returns a pair with an `Option Error`,
  or a `Result` when the source returns `nil` together with the error; a
  run-time panic (index or slice out of range) is the `Result.panic` outcome.
* What the operating system supplies (command output, sysctl values, the mount
  table, the file system) is an explicit environment argument.
-/

namespace Gopsutil

/-! ## Go strings -/

/-- A Go string, as its sequence of bytes. -/
abbrev GoString := List Nat

/-- UTF-8 encoding of one code point. -/
def utf8 (c : Nat) : List Nat :=
  if c < 0x80 then [c]
  else if c < 0x800 then [0xC0 + c / 64, 0x80 + c % 64]
  else if c < 0x10000 then [0xE0 + c / 4096, 0x80 + c / 64 % 64, 0x80 + c % 64]
  else [0xF0 + c / 262144, 0x80 + c / 4096 % 64, 0x80 + c / 64 % 64, 0x80 + c % 64]

/-- The bytes of a string literal of the source. -/
def str (s : String) : GoString :=
  s.toList.flatMap (fun c => utf8 c.toNat)

/-- Go `strings.Split(s, sep)` for a one-byte separator `sep`: the substrings
between the occurrences of `sep`; one more substring than there are separators. -/
def Split : GoString → Nat → List GoString
  | [], _ => [[]]
  | c :: cs, sep =>
    if c = sep then [] :: Split cs sep
    else
      match Split cs sep with
      | [] => [[c]]
      | f :: fs => (c :: f) :: fs

/-- Go `strings.Trim(s, cutset)` for an ASCII `cutset`: leading and trailing
bytes that occur in `cutset` are removed. -/
def Trim (s cutset : GoString) : GoString :=
  ((s.dropWhile (fun c => decide (c ∈ cutset))).reverse.dropWhile
    (fun c => decide (c ∈ cutset))).reverse

/-- The code points for which Go `unicode.IsSpace` holds. -/
def unicodeSpaces : List Nat :=
  [0x09, 0x0A, 0x0B, 0x0C, 0x0D, 0x20, 0x85, 0xA0, 0x1680,
   0x2000, 0x2001, 0x2002, 0x2003, 0x2004, 0x2005, 0x2006, 0x2007, 0x2008, 0x2009, 0x200A,
   0x2028, 0x2029, 0x202F, 0x205F, 0x3000]

/-- `startsWith p s`: the byte sequence `p` begins `s`. -/
def startsWith : List Nat → List Nat → Bool
  | [], _ => true
  | _ :: _, [] => false
  | a :: p, b :: s => a == b && startsWith p s

/-- Removes one leading white-space rune (given by its encoding in `seqs`),
if `s` starts with one. -/
def dropSpace (seqs : List (List Nat)) (s : GoString) : Option GoString :=
  seqs.findSome? (fun q => if startsWith q s then some (s.drop q.length) else none)

/-- Removes leading white-space runes, at most `fuel` of them. -/
def trimLeftSpace (seqs : List (List Nat)) : Nat → GoString → GoString
  | 0, s => s
  | fuel + 1, s =>
    match dropSpace seqs s with
    | some r => trimLeftSpace seqs fuel r
    | none => s

/-- Go `strings.TrimSpace(s)`: leading and trailing runes that are Unicode
white space are removed.  A rune is recognised by its UTF-8 encoding, so bytes
that are not valid UTF-8 are never white space.  The right end is trimmed on
the reversed string with the reversed encodings. -/
def TrimSpace (s : GoString) : GoString :=
  let l := trimLeftSpace (unicodeSpaces.map utf8) s.length s
  (trimLeftSpace (unicodeSpaces.map (fun c => (utf8 c).reverse)) l.length l.reverse).reverse

/-! ## Errors -/

/-- The two error kinds of `strconv`. -/
inductive ErrKind
  | ErrSyntax
  | ErrRange
  deriving DecidableEq, Repr

/-- Go `strconv.NumError`: the failing function, its input and the kind. -/
structure NumError where
  Func : String
  Num : GoString
  Err : ErrKind
  deriving DecidableEq, Repr

/-- A Go `error` value: a `*strconv.NumError`, or an error of the operating
system (failed command, sysctl, system call or decoding), given by a code. -/
inductive Error
  | num (e : NumError)
  | os (code : Nat)
  deriving DecidableEq, Repr

/-- The outcome of a Go function that returns `(*T, error)` with a nil pointer
on error, or panics. -/
inductive Result (α : Type)
  | panic : Result α
  | err (e : Error) : Result α
  | ok (v : α) : Result α

/-! ## strconv.ParseUint -/

/-- The largest `uint64`. -/
def maxUint64 : Nat := 2 ^ 64 - 1

/-- The digit loop of `strconv.ParseUint(s0, 10, 64)`: `n` is the value read so
far.  A byte that is not a digit of the base is a syntax error with value `0`;
an overflow is a range error with value `maxUint64`. -/
def parseUintLoop (s0 : GoString) : GoString → Nat → Nat × Option Error
  | [], n => (n, none)
  | c :: cs, n =>
    let base := 10
    let cutoff := maxUint64 / 10 + 1
    let lower := c ||| 0x20
    let d : Option Nat :=
      if 48 ≤ c ∧ c ≤ 57 then some (c - 48)
      else if 97 ≤ lower ∧ lower ≤ 122 then some (lower - 97 + 10)
      else none
    match d with
    | none => (0, some (Error.num ⟨"ParseUint", s0, ErrKind.ErrSyntax⟩))
    | some d =>
      if d ≥ base then (0, some (Error.num ⟨"ParseUint", s0, ErrKind.ErrSyntax⟩))
      else if n ≥ cutoff then (maxUint64, some (Error.num ⟨"ParseUint", s0, ErrKind.ErrRange⟩))
      else
        let n10 := (n * base) % 2 ^ 64
        let n1 := (n10 + d) % 2 ^ 64
        if n1 < n10 ∨ n1 > maxUint64 then
          (maxUint64, some (Error.num ⟨"ParseUint", s0, ErrKind.ErrRange⟩))
        else parseUintLoop s0 cs n1

/-- Go `strconv.ParseUint(s, 10, 64)`: value and error. -/
def ParseUint (s : GoString) : Nat × Option Error :=
  if s = [] then (0, some (Error.num ⟨"ParseUint", s, ErrKind.ErrSyntax⟩))
  else parseUintLoop s s 0

/-! ## mem (Darwin, no cgo) -/

/-- The record `VirtualMemoryStat`; all `uint64` fields are byte counts. -/
structure VirtualMemoryStat where
  Total : Nat
  Available : Nat
  Used : Nat
  UsedPercent : Float
  Free : Nat
  Active : Nat
  Inactive : Nat
  Wired : Nat

/-- The zero value `&VirtualMemoryStat{}`. -/
def VirtualMemoryStat.zero : VirtualMemoryStat :=
  ⟨0, 0, 0, 0.0, 0, 0, 0, 0⟩

/-- `if e != nil { err = e }`. -/
def keepErr (err e : Option Error) : Option Error :=
  match e with
  | some x => some x
  | none => err

/-- The key and the value of a line, as the loop body of `parseVMStat` reads
them: the line is split at `:`; with fewer than two fields there is none;
otherwise the key is the first field trimmed of white space and the value is
the second field trimmed of spaces and periods. -/
def lineKV (line : GoString) : Option (GoString × GoString) :=
  match Split line 58 with
  | f0 :: f1 :: _ => some (TrimSpace f0, Trim f1 (str " ."))
  | _ => none

/-- One iteration of the loop of `parseVMStat`: a line without key and value
is skipped; otherwise the key selects the case of the `switch` and the value
is parsed.  The field is assigned whether or not the parse failed. -/
def parseVMStatLine (pagesize : Nat) (st : VirtualMemoryStat × Option Error)
    (line : GoString) : VirtualMemoryStat × Option Error :=
  match lineKV line with
  | none => st
  | some (key, value) =>
    if key = str "Pages free" then
      let r := ParseUint value
      ({ st.1 with Free := (r.1 * pagesize) % 2 ^ 64 }, keepErr st.2 r.2)
    else if key = str "Pages inactive" then
      let r := ParseUint value
      ({ st.1 with Inactive := (r.1 * pagesize) % 2 ^ 64 }, keepErr st.2 r.2)
    else if key = str "Pages active" then
      let r := ParseUint value
      ({ st.1 with Active := (r.1 * pagesize) % 2 ^ 64 }, keepErr st.2 r.2)
    else if key = str "Pages wired down" then
      let r := ParseUint value
      ({ st.1 with Wired := (r.1 * pagesize) % 2 ^ 64 }, keepErr st.2 r.2)
    else st

/-- The function `parseVMStat(out, vms)` with the page size
`uint64(syscall.Getpagesize())` as an argument: the updated record and the
returned error. -/
def parseVMStat (out : GoString) (pagesize : Nat) (vms : VirtualMemoryStat) :
    VirtualMemoryStat × Option Error :=
  (Split out 10).foldl (parseVMStatLine pagesize) (vms, none)

/-- What the operating system supplies to `VirtualMemory`. -/
structure MemEnv where
  /-- Result of `common.DoSysctrl("hw.memsize")`. -/
  memsize : Except Error (List GoString)
  /-- Result of `exec.Command("vm_stat").Output()`. -/
  vmStat : Except Error GoString
  /-- Result of `syscall.Getpagesize()`. -/
  pagesize : Nat

/-- The function `getVMStat(vms)`. -/
def getVMStat (E : MemEnv) (vms : VirtualMemoryStat) : VirtualMemoryStat × Option Error :=
  match E.vmStat with
  | .error e => (vms, some e)
  | .ok out => parseVMStat out E.pagesize vms

/-- The function `VirtualMemory()`.  `t[0]` panics on an empty sysctl result;
every error returns a nil record. -/
def VirtualMemory (E : MemEnv) : Result VirtualMemoryStat :=
  match E.memsize with
  | .error e => .err e
  | .ok [] => .panic
  | .ok (t0 :: _) =>
    match ParseUint t0 with
    | (_, some e) => .err e
    | (total, none) =>
      match getVMStat E VirtualMemoryStat.zero with
      | (_, some e) => .err e
      | (ret, none) =>
        let ret := { ret with Available := (ret.Free + ret.Inactive) % 2 ^ 64 }
        let ret := { ret with Total := total }
        let ret := { ret with Used := (ret.Total + 2 ^ 64 - ret.Free) % 2 ^ 64 }
        let ret := { ret with
          UsedPercent :=
            Float.ofNat ((ret.Total + 2 ^ 64 - ret.Available) % 2 ^ 64) / Float.ofNat ret.Total
              * 100.0 }
        .ok ret

/-! ## disk (FreeBSD): partitions -/

/-- The mount-flag constants used by `PartitionsWithContext`.  Their
declarations are not part of the translated sources, so the masks are
arguments of the embedding. -/
structure MntFlags where
  MNT_RDONLY : Nat
  MNT_SYNCHRONOUS : Nat
  MNT_NOEXEC : Nat
  MNT_NOSUID : Nat
  MNT_UNION : Nat
  MNT_ASYNC : Nat
  MNT_SUIDDIR : Nat
  MNT_SOFTDEP : Nat
  MNT_NOSYMFOLLOW : Nat
  MNT_GJOURNAL : Nat
  MNT_MULTILABEL : Nat
  MNT_ACLS : Nat
  MNT_NOATIME : Nat
  MNT_NOCLUSTERR : Nat
  MNT_NOCLUSTERW : Nat
  MNT_NFS4ACLS : Nat

/-- The masks of FreeBSD `sys/mount.h`, as a concrete instance of `MntFlags`. -/
def MntFlags.freebsd : MntFlags where
  MNT_RDONLY := 0x1
  MNT_SYNCHRONOUS := 0x2
  MNT_NOEXEC := 0x4
  MNT_NOSUID := 0x8
  MNT_UNION := 0x20
  MNT_ASYNC := 0x40
  MNT_SUIDDIR := 0x100000
  MNT_SOFTDEP := 0x200000
  MNT_NOSYMFOLLOW := 0x400000
  MNT_GJOURNAL := 0x2000000
  MNT_MULTILABEL := 0x4000000
  MNT_ACLS := 0x8000000
  MNT_NOATIME := 0x10000000
  MNT_NOCLUSTERR := 0x40000000
  MNT_NOCLUSTERW := 0x80000000
  MNT_NFS4ACLS := 0x10

/-- The fields of `Statfs` that `PartitionsWithContext` reads; the `int8`
arrays are lists of integers. -/
structure Statfs where
  Flags : Nat
  Fstypename : List Int
  Mntfromname : List Int
  Mntonname : List Int

/-- The zero value of `Statfs`, an element of `make([]Statfs, count)`: the
arrays (16 and 88 bytes in FreeBSD) are all zero. -/
def Statfs.zero : Statfs :=
  ⟨0, List.replicate 16 0, List.replicate 88 0, List.replicate 88 0⟩

/-- The record `PartitionStat`. -/
structure PartitionStat where
  Device : GoString
  Mountpoint : GoString
  Fstype : GoString
  Opts : GoString
  deriving DecidableEq, Repr

/-- Modelled from the spec: `common.IntToString` is not part of the translated
sources; a fixed-length byte array is read as text by trimming at the first
null byte, each `int8` being converted to a byte. -/
def IntToString (orig : List Int) : GoString :=
  (orig.takeWhile (fun o => decide (o ≠ 0))).map (fun o => (o % 256).toNat)

/-- Go `path.IsAbs(p)`: `len(p) > 0 && p[0] == '/'`. -/
def IsAbs (p : GoString) : Bool :=
  match p with
  | [] => false
  | c :: _ => c == 47

/-- The option string built from `stat.Flags` in the loop of
`PartitionsWithContext` (the sixteen `if` statements, in source order). -/
def mountOpts (M : MntFlags) (flags : Nat) : GoString :=
  let opts := str "rw"
  let opts := if flags &&& M.MNT_RDONLY ≠ 0 then str "ro" else opts
  let opts := if flags &&& M.MNT_SYNCHRONOUS ≠ 0 then opts ++ str ",sync" else opts
  let opts := if flags &&& M.MNT_NOEXEC ≠ 0 then opts ++ str ",noexec" else opts
  let opts := if flags &&& M.MNT_NOSUID ≠ 0 then opts ++ str ",nosuid" else opts
  let opts := if flags &&& M.MNT_UNION ≠ 0 then opts ++ str ",union" else opts
  let opts := if flags &&& M.MNT_ASYNC ≠ 0 then opts ++ str ",async" else opts
  let opts := if flags &&& M.MNT_SUIDDIR ≠ 0 then opts ++ str ",suiddir" else opts
  let opts := if flags &&& M.MNT_SOFTDEP ≠ 0 then opts ++ str ",softdep" else opts
  let opts := if flags &&& M.MNT_NOSYMFOLLOW ≠ 0 then opts ++ str ",nosymfollow" else opts
  let opts := if flags &&& M.MNT_GJOURNAL ≠ 0 then opts ++ str ",gjounalc" else opts
  let opts := if flags &&& M.MNT_MULTILABEL ≠ 0 then opts ++ str ",multilabel" else opts
  let opts := if flags &&& M.MNT_ACLS ≠ 0 then opts ++ str ",acls" else opts
  let opts := if flags &&& M.MNT_NOATIME ≠ 0 then opts ++ str ",noattime" else opts
  let opts := if flags &&& M.MNT_NOCLUSTERR ≠ 0 then opts ++ str ",nocluster" else opts
  let opts := if flags &&& M.MNT_NOCLUSTERW ≠ 0 then opts ++ str ",noclusterw" else opts
  let opts := if flags &&& M.MNT_NFS4ACLS ≠ 0 then opts ++ str ",nfs4acls" else opts
  opts

/-- What the operating system supplies to `PartitionsWithContext`. -/
structure DiskEnv where
  /-- The mount-flag constants. -/
  M : MntFlags
  /-- Result of the size probe `unix.Getfsstat(nil, MNT_WAIT)`. -/
  count : Except Error Nat
  /-- The mount table the kernel holds at the second call (in enumeration
  order), or the error of that call. -/
  table : Except Error (List Statfs)
  /-- The file-system predicate `common.PathExists`. -/
  PathExists : GoString → Bool

/-- The function `Getfsstat(buf, flags)`: the system call is given the address
and byte size of `buf`; the kernel copies out one record per mounted file
system, as many as fit, and returns their number.  The result is the buffer
after the call, `n` and `err` (`n` is `-1` on error). -/
def Getfsstat (E : DiskEnv) (buf : List Statfs) : List Statfs × Int × Option Error :=
  match E.table with
  | .error e => (buf, -1, some e)
  | .ok t =>
    let n := min t.length buf.length
    (t.take n ++ buf.drop n, (n : Int), none)

/-- The record `d` built for one `stat`. -/
def partitionOf (M : MntFlags) (stat : Statfs) : PartitionStat where
  Device := IntToString stat.Mntfromname
  Mountpoint := IntToString stat.Mntonname
  Fstype := IntToString stat.Fstypename
  Opts := mountOpts M stat.Flags

/-- One iteration of `for _, stat := range fs`. -/
def partitionsStep (E : DiskEnv) (all : Bool) (ret : List PartitionStat) (stat : Statfs) :
    List PartitionStat :=
  let d := partitionOf E.M stat
  if all = false ∧ (IsAbs d.Device = false ∨ E.PathExists d.Device = false) then ret
  else ret ++ [d]

/-- The function `PartitionsWithContext(ctx, all)`: the returned slice and
error.  The count returned by the second call is discarded and the loop ranges
over the whole buffer `fs`. -/
def PartitionsWithContext (E : DiskEnv) (all : Bool) : List PartitionStat × Option Error :=
  match E.count with
  | .error e => ([], some e)
  | .ok count =>
    let fs := List.replicate count Statfs.zero
    match Getfsstat E fs with
    | (_, _, some e) => ([], some e)
    | (fs, _, none) => (fs.foldl (partitionsStep E all) [], none)

/-! ## disk (FreeBSD): I/O counters -/

/-- The type `Bintime`. -/
structure Bintime where
  Sec : Int
  Frac : Nat

/-- The method `Bintime.Compute` in `float64` arithmetic. -/
def Bintime.Compute (b : Bintime) : Float :=
  let BINTIME_SCALE : Float := 5.42101086242752217003726400434970855712890625e-20
  Float.ofInt b.Sec + Float.ofNat b.Frac * BINTIME_SCALE

/-- The fields of `Devstat` that `IOCountersWithContext` reads; the arrays of
four counters are indexed by `Fin 4`. -/
structure Devstat where
  Device_name : List Int
  Unit_number : Int
  Bytes : Fin 4 → Nat
  Operations : Fin 4 → Nat
  Duration : Fin 4 → Bintime
  Busy_time : Bintime

/-- The record `IOCountersStat`. -/
structure IOCountersStat where
  ReadCount : Nat
  WriteCount : Nat
  ReadBytes : Nat
  WriteBytes : Nat
  ReadTime : Nat
  WriteTime : Nat
  IoTime : Nat
  Name : GoString

/-- A Go `map[string]IOCountersStat`. -/
abbrev IOMap := GoString → Option IOCountersStat

/-- The empty map `make(map[string]IOCountersStat)`. -/
def IOMap.empty : IOMap := fun _ => none

/-- The assignment `ret[name] = ds`. -/
def IOMap.set (m : IOMap) (name : GoString) (ds : IOCountersStat) : IOMap :=
  fun k => if k = name then some ds else m k

/-- A Go `[]byte`: the backing array from the first element of the slice on
(its length is the capacity) and the length of the slice. -/
structure ByteSlice where
  arr : List Nat
  len : Nat

/-- The conversion `[]byte(r)`: the bytes of `r`, with `spare` zeroed bytes of
capacity beyond the length (the run-time system chooses `spare`). -/
def ByteSlice.ofString (r : GoString) (spare : Nat) : ByteSlice :=
  ⟨r ++ List.replicate spare 0, r.length⟩

/-- The slice expression `b[lo:hi]`; `none` is the panic when
`lo <= hi <= cap(b)` fails. -/
def ByteSlice.slice (b : ByteSlice) (lo hi : Nat) : Option ByteSlice :=
  if lo ≤ hi ∧ hi ≤ b.arr.length then some ⟨b.arr.drop lo, hi - lo⟩ else none

/-- The slice expression `b[lo:]`, that is `b[lo:len(b)]`. -/
def ByteSlice.sliceFrom (b : ByteSlice) (lo : Nat) : Option ByteSlice :=
  b.slice lo b.len

/-- The bytes of a slice. -/
def ByteSlice.bytes (b : ByteSlice) : List Nat :=
  b.arr.take b.len

/-- Go `strconv.Itoa(i)`: the decimal digits, after a minus sign if negative. -/
def Itoa (i : Int) : GoString :=
  if i < 0 then 45 :: (Nat.toDigits 10 i.natAbs).map Char.toNat
  else (Nat.toDigits 10 i.toNat).map Char.toNat

/-- Modelled from the spec: `common.StringsHas` is not part of the translated
sources; a record is skipped when its composed name is absent from the filter
list, so the helper is membership in the list. -/
def StringsHas (target : List GoString) (src : GoString) : Bool :=
  decide (src ∈ target)

/-- What the platform and the operating system supply to
`IOCountersWithContext`. -/
structure DevstatEnv where
  /-- Result of `unix.Sysctl("kern.devstat.all")`. -/
  sysctl : Except Error GoString
  /-- Spare capacity of `[]byte(r)`. -/
  spare : Nat
  /-- The constant `sizeOfDevstat` (positive). -/
  sizeOfDevstat : Nat
  /-- The constant `DEVSTAT_READ`. -/
  DEVSTAT_READ : Fin 4
  /-- The constant `DEVSTAT_WRITE`. -/
  DEVSTAT_WRITE : Fin 4
  /-- The decoder `common.Read(br, binary.LittleEndian, &ds)` on the bytes of
  the reader. -/
  Read : List Nat → Except Error Devstat
  /-- The conversion `uint64(x)` of a `float64`: truncation for a value in
  range; for a value that `uint64` cannot represent the result depends on the
  implementation, so the conversion is supplied by the platform. -/
  toUint64 : Float → Nat

/-- The function `parseDevstat(buf)`. -/
def parseDevstat (E : DevstatEnv) (buf : ByteSlice) : Except Error Devstat :=
  match E.Read buf.bytes with
  | .error e => .error e
  | .ok ds => .ok ds

/-- The composed name `common.IntToString(d.Device_name[:]) + un`. -/
def devName (d : Devstat) : GoString :=
  let un := Itoa d.Unit_number
  IntToString d.Device_name ++ un

/-- The record `ds` built from a decoded `d`. -/
def ioStatOf (E : DevstatEnv) (d : Devstat) (name : GoString) : IOCountersStat where
  ReadCount := d.Operations E.DEVSTAT_READ
  WriteCount := d.Operations E.DEVSTAT_WRITE
  ReadBytes := d.Bytes E.DEVSTAT_READ
  WriteBytes := d.Bytes E.DEVSTAT_WRITE
  ReadTime := E.toUint64 ((d.Duration E.DEVSTAT_READ).Compute * 1000)
  WriteTime := E.toUint64 ((d.Duration E.DEVSTAT_WRITE).Compute * 1000)
  IoTime := E.toUint64 (d.Busy_time.Compute * 1000)
  Name := name

/-- The loop `for i := 0; i < count; i++` of `IOCountersWithContext`, with
`n = count - i` iterations left; `none` is a panic of the slice expression. -/
def ioCountersLoop (E : DevstatEnv) (names : List GoString) (buf : ByteSlice) :
    Nat → Nat → IOMap → Option IOMap
  | 0, _, ret => some ret
  | n + 1, i, ret =>
    match buf.slice (i * E.sizeOfDevstat) (i * E.sizeOfDevstat + E.sizeOfDevstat) with
    | none => none
    | some b =>
      match parseDevstat E b with
      | .error _ => ioCountersLoop E names buf n (i + 1) ret
      | .ok d =>
        let name := devName d
        if names.length > 0 ∧ StringsHas names name = false then
          ioCountersLoop E names buf n (i + 1) ret
        else
          ioCountersLoop E names buf n (i + 1) (ret.set name (ioStatOf E d name))

/-- The number of records: `int(uint64(length) / uint64(sizeOfDevstat))`. -/
def devstatCount (length sizeOfDevstat : Nat) : Nat :=
  length / sizeOfDevstat

/-- The function `IOCountersWithContext(ctx, names...)`. -/
def IOCountersWithContext (E : DevstatEnv) (names : List GoString) : Result IOMap :=
  match E.sysctl with
  | .error e => .err e
  | .ok r =>
    let buf := ByteSlice.ofString r E.spare
    let length := buf.len
    let count := devstatCount length E.sizeOfDevstat
    match buf.sliceFrom 8 with
    | none => .panic
    | some buf =>
      match ioCountersLoop E names buf count 0 IOMap.empty with
      | none => .panic
      | some ret => .ok ret

/-! ### disk (FreeBSD): serial number -/

/-- What the operating system supplies to `GetDiskSerialNumberWithContext`. -/
structure SerialEnv where
  /-- Result of `unix.Stat(name, &stat)`: the field `stat.Rdev`, or the error. -/
  stat : GoString → Except Error Nat
  /-- The library function `unix.Major`. -/
  Major : Nat → Nat
  /-- The library function `unix.Minor`. -/
  Minor : Nat → Nat
  /-- Result of `ioutil.ReadFile(path)`: the bytes read and the error. -/
  readFile : GoString → GoString × Option Error

/-- The verb `%d` of `fmt.Sprintf` on an unsigned integer: its decimal digits. -/
def fmtD (n : Nat) : GoString :=
  (Nat.toDigits 10 n).map Char.toNat

/-- Go `bufio.MaxScanTokenSize`, the size limit of the buffer of a `Scanner`. -/
def maxScanTokenSize : Nat := 64 * 1024

/-- The helper `dropCR` of `bufio.ScanLines`: one trailing carriage return is
removed. -/
def dropCR (data : GoString) : GoString :=
  if data.getLast? = some 13 then data.dropLast else data

/-- The texts that `scanner.Scan()` / `scanner.Text()` yield for a
`bufio.NewScanner` over `data` (split function `bufio.ScanLines`, default
buffer): the segments between newlines, without a final empty segment, each
with one trailing carriage return removed; scanning stops, with an error that
the loop does not look at, at the first segment of `maxScanTokenSize` bytes
or more, which does not fit the buffer. -/
def scanLines (data : GoString) : List GoString :=
  let segs := Split data 10
  let segs := if segs.getLast? = some [] then segs.dropLast else segs
  (segs.takeWhile (fun seg => decide (seg.length < maxScanTokenSize))).map dropCR

/-- The body of the scanner loop of `GetDiskSerialNumberWithContext`: the line
is split at `=`; with exactly two parts, the first being `E:ID_SERIAL`, the
second is returned. -/
def udevSerial (text : GoString) : Option GoString :=
  match Split text 61 with
  | [k, v] => if k = str "E:ID_SERIAL" then some v else none
  | _ => none

/-- The path `fmt.Sprintf("/run/udev/data/b%d:%d", major, minor)`. -/
def udevDataPath (major minor : Nat) : GoString :=
  str "/run/udev/data/b" ++ fmtD major ++ str ":" ++ fmtD minor

/-- The path `fmt.Sprintf("/sys/dev/block/%d:0/device", major)`. -/
def devicePath (major : Nat) : GoString :=
  str "/sys/dev/block/" ++ fmtD major ++ str ":0/device"

/-- The function `GetDiskSerialNumberWithContext(ctx, name)`.
`filepath.Join(devicePath, "model")` is `devicePath` followed by `/model`,
the device path being clean already. -/
def GetDiskSerialNumberWithContext (E : SerialEnv) (name : GoString) : GoString :=
  match E.stat name with
  | .error _ => str ""
  | .ok rdev =>
    let major := E.Major rdev
    let minor := E.Minor rdev
    let fromUdev : Option GoString :=
      match E.readFile (udevDataPath major minor) with
      | (udevdata, none) => (scanLines udevdata).findSome? udevSerial
      | (_, some _) => none
    match fromUdev with
    | some v => v
    | none =>
      let model := (E.readFile (devicePath major ++ str "/model")).1
      let serial := (E.readFile (devicePath major ++ str "/serial")).1
      if model.length > 0 ∧ serial.length > 0 then model ++ str "_" ++ serial
      else str ""

/-- A system with the block device `/dev/sda` of device number `0x800`
(major 8, minor 0 by the FreeBSD formulas of `unix.Major` and `unix.Minor`),
the udev data file `udev` for it (if any) and the sysfs files `model` and
`serial` (if any); every other file is missing. -/
def serialEnvOf (udev model serial : Option GoString) : SerialEnv where
  stat := fun name => if name = str "/dev/sda" then .ok 0x800 else .error (Error.os 2)
  Major := fun dev => (dev >>> 8) &&& 0xff
  Minor := fun dev => dev &&& 0xffff00ff
  readFile := fun path =>
    if path = str "/run/udev/data/b8:0" then
      match udev with
      | some d => (d, none)
      | none => ([], some (Error.os 2))
    else if path = str "/sys/dev/block/8:0/device/model" then
      match model with
      | some d => (d, none)
      | none => ([], some (Error.os 2))
    else if path = str "/sys/dev/block/8:0/device/serial" then
      match serial with
      | some d => (d, none)
      | none => ([], some (Error.os 2))
    else ([], some (Error.os 2))

/-! ## Vocabulary of the statements -/

/-- The four cases of the `switch` in `parseVMStat`. -/
inductive Fld
  | free
  | inactive
  | active
  | wired
  deriving DecidableEq, Repr

/-- The key of a case. -/
def Fld.key : Fld → GoString
  | .free => str "Pages free"
  | .inactive => str "Pages inactive"
  | .active => str "Pages active"
  | .wired => str "Pages wired down"

/-- The field a case assigns. -/
def Fld.get : Fld → VirtualMemoryStat → Nat
  | .free, v => v.Free
  | .inactive, v => v.Inactive
  | .active, v => v.Active
  | .wired, v => v.Wired

/-- The assignment of a case. -/
def Fld.set : Fld → Nat → VirtualMemoryStat → VirtualMemoryStat
  | .free, x, v => { v with Free := x }
  | .inactive, x, v => { v with Inactive := x }
  | .active, x, v => { v with Active := x }
  | .wired, x, v => { v with Wired := x }

/-- The case selected by a key, if any. -/
def fldOf (key : GoString) : Option Fld :=
  if key = str "Pages free" then some .free
  else if key = str "Pages inactive" then some .inactive
  else if key = str "Pages active" then some .active
  else if key = str "Pages wired down" then some .wired
  else none

/-- The line has a first colon, the text before it trims to `k`, and `rest`
is the text after it. -/
def KeyLine (line k rest : GoString) : Prop :=
  ∃ k0, line = k0 ++ 58 :: rest ∧ 58 ∉ k0 ∧ TrimSpace k0 = k

/-- The value denoted by a string of decimal digits. -/
def decVal (ds : List Nat) : Nat :=
  ds.foldl (fun n c => n * 10 + (c - 48)) 0

/-- The text `rest` is a decimal numeral denoting `N < 2 ^ 64`, surrounded
only by spaces and periods. -/
def IsNumeralField (rest : GoString) (N : Nat) : Prop :=
  ∃ pre ds post, rest = pre ++ ds ++ post ∧
    (∀ c ∈ pre, c = 32 ∨ c = 46) ∧ (∀ c ∈ post, c = 32 ∨ c = 46) ∧
    ds ≠ [] ∧ (∀ c ∈ ds, 48 ≤ c ∧ c ≤ 57) ∧ decVal ds = N ∧ N < 2 ^ 64

/-- A `vm_stat` report with three recognised lines. -/
def vmStatSample : GoString :=
  str "Pages free: 1000.\nPages active: 500.\nPages wired down: 200.\n"

/-- An environment for `VirtualMemory`: 8,000,000 bytes of memory, the report
`vmStatSample` and pages of 4096 bytes. -/
def memEnvSample : MemEnv :=
  ⟨.ok [str "8000000"], .ok vmStatSample, 4096⟩

/-- An environment in which `vm_stat` reports 2^51 free and 2^51 inactive
pages of 4096 bytes, with 8,000,000 bytes of memory. -/
def memEnvWrap : MemEnv :=
  ⟨.ok [str "8000000"],
   .ok (str "Pages free: 2251799813685248.\nPages inactive: 2251799813685248.\n"), 4096⟩

/-- A report with a well-formed line followed by a malformed line of the same
key, and a line whose value is the largest `uint64`. -/
def vmStatMixed : GoString :=
  str "Pages free: 1\nPages free: x\nPages active: 18446744073709551615\n"

/-- An environment for `VirtualMemory` whose report is `vmStatMixed`. -/
def memEnvMixed : MemEnv :=
  ⟨.ok [str "8000000"], .ok vmStatMixed, 4096⟩

/-- The table of the statement of the option string: the fifteen masks in
declared order, each with the token the source appends for it. -/
def optionTable (M : MntFlags) : List (Nat × GoString) :=
  [(M.MNT_SYNCHRONOUS, str "sync"), (M.MNT_NOEXEC, str "noexec"), (M.MNT_NOSUID, str "nosuid"),
   (M.MNT_UNION, str "union"), (M.MNT_ASYNC, str "async"), (M.MNT_SUIDDIR, str "suiddir"),
   (M.MNT_SOFTDEP, str "softdep"), (M.MNT_NOSYMFOLLOW, str "nosymfollow"),
   (M.MNT_GJOURNAL, str "gjounalc"), (M.MNT_MULTILABEL, str "multilabel"),
   (M.MNT_ACLS, str "acls"), (M.MNT_NOATIME, str "noattime"),
   (M.MNT_NOCLUSTERR, str "nocluster"), (M.MNT_NOCLUSTERW, str "noclusterw"),
   (M.MNT_NFS4ACLS, str "nfs4acls")]

/-- The option string as the statement describes it: the base, followed by
"," and the token of every table entry whose mask is set in `f`, in table
order. -/
def mountOptsTable (M : MntFlags) (f : Nat) : GoString :=
  (if f &&& M.MNT_RDONLY ≠ 0 then str "ro" else str "rw") ++
    ((optionTable M).filter (fun e => decide (f &&& e.1 ≠ 0))).flatMap (fun e => 44 :: e.2)

/-- The bytes of a name in a zero-padded `int8` array of length `n`. -/
def int8Array (name : GoString) (n : Nat) : List Int :=
  name.map Int.ofNat ++ List.replicate (n - name.length) 0

/-- A mount record: a read-only, synchronous, noatime UFS root on
`/dev/ada0p2` (flags `0x10000003`). -/
def statfsRoot : Statfs :=
  ⟨0x10000003, int8Array (str "ufs") 16, int8Array (str "/dev/ada0p2") 88,
    int8Array (str "/") 88⟩

/-- The record `statfsRoot` with the additional flag bit `0x1000`, which is
none of the sixteen masks. -/
def statfsRootLocal : Statfs :=
  { statfsRoot with Flags := 0x10000003 ||| 2 ^ 12 }

/-- A mount record of the pseudo file system `devfs` on `/dev`; its device
name `devfs` is not an absolute path. -/
def statfsDevfs : Statfs :=
  ⟨0, int8Array (str "devfs") 16, int8Array (str "devfs") 88, int8Array (str "/dev") 88⟩

/-- A mount record whose device `/dev/da9` is absolute. -/
def statfsStale : Statfs :=
  ⟨0, int8Array (str "ufs") 16, int8Array (str "/dev/da9") 88, int8Array (str "/mnt") 88⟩

/-- A system on which only `/dev/ada0p2` exists, the size probe counts four
mounts and the second call finds three. -/
def diskEnvSample : DiskEnv :=
  ⟨MntFlags.freebsd, .ok 4, .ok [statfsRoot, statfsDevfs, statfsStale],
    fun p => decide (p = str "/dev/ada0p2")⟩

/-- A system on which the size probe counts two mounts and one of them is
unmounted before the second call, which fills one record. -/
def diskEnvShrunk : DiskEnv :=
  ⟨MntFlags.freebsd, .ok 2, .ok [statfsRoot], fun _ => true⟩

/-- The `i`-th record of a `kern.devstat.all` blob `r` for record width `W`:
the bytes `[8 + i * W, 8 + (i + 1) * W)`. -/
def recordAt (r : GoString) (W i : Nat) : List Nat :=
  (r.drop (8 + i * W)).take W

/-- What iteration `i` of the loop of `IOCountersWithContext` stores in the
map when its slice is the `i`-th record: nothing if decoding fails or the
composed name is filtered out, otherwise the name and the record built. -/
def ioEntry (E : DevstatEnv) (names : List GoString) (r : GoString) (i : Nat) :
    Option (GoString × IOCountersStat) :=
  match E.Read (recordAt r E.sizeOfDevstat i) with
  | .error _ => none
  | .ok d =>
    if names.length > 0 ∧ StringsHas names (devName d) = false then none
    else some (devName d, ioStatOf E d (devName d))

/-- The map after the iterations listed in `idx`, started from `m`. -/
def ioFold (E : DevstatEnv) (names : List GoString) (r : GoString) (idx : List Nat)
    (m : IOMap) : IOMap :=
  idx.foldl (fun m i =>
    match ioEntry E names r i with
    | none => m
    | some kv => m.set kv.1 kv.2) m

/-- A decoder for concrete instances, of a 24-byte record: 16 bytes of device
name, one byte of unit number, one byte each for the read and write operation
counts and the read and write byte counts, three bytes of padding.  Decoding
fails on fewer than 24 bytes and on a record that starts with the byte 255. -/
def sampleRead (b : List Nat) : Except Error Devstat :=
  if b.length < 24 ∨ b.head? = some 255 then .error (Error.os 22)
  else
    .ok {
      Device_name := (b.take 16).map (fun x => if x < 128 then (x : Int) else (x : Int) - 256)
      Unit_number := (b.getD 16 0 : Nat)
      Operations := fun i => if i = 1 then b.getD 17 0 else if i = 2 then b.getD 18 0 else 0
      Bytes := fun i => if i = 1 then b.getD 19 0 else if i = 2 then b.getD 20 0 else 0
      Duration := fun _ => ⟨0, 0⟩
      Busy_time := ⟨0, 0⟩ }

/-- One 24-byte record for `sampleRead`. -/
def sampleRecord (name : GoString) (unit rOps wOps rBytes wBytes : Nat) : List Nat :=
  name ++ List.replicate (16 - name.length) 0 ++ [unit, rOps, wOps, rBytes, wBytes, 0, 0, 0]

/-- A blob of an 8-byte header and three 24-byte records: `ada0`, a record
that does not decode, and `da1`. -/
def devstatBlob : GoString :=
  List.replicate 8 0 ++ sampleRecord (str "ada") 0 5 6 7 8 ++
    (255 :: List.replicate 23 0) ++ sampleRecord (str "da") 1 1 2 3 4

/-- The environment of `IOCountersWithContext` for a blob `r` and a spare
capacity, with 24-byte records decoded by `sampleRead` and a conversion to
`uint64` that saturates out of range. -/
def devstatEnvOf (r : GoString) (spare : Nat) : DevstatEnv :=
  ⟨.ok r, spare, 24, 1, 2, sampleRead, fun x => x.toUInt64.toNat⟩

/-- An environment in which `vm_stat` reports 2000 free and 2000 inactive
pages of 4096 bytes, with 8,000,000 bytes of memory. -/
def memEnvOver : MemEnv :=
  ⟨.ok [str "8000000"], .ok (str "Pages free: 2000.\nPages inactive: 2000.\n"), 4096⟩

/-- A report without recognised lines: a heading with a colon, a line without
colon and a line with another key. -/
def vmStatOther : GoString :=
  str "Mach Virtual Memory Statistics: (page size of 4096 bytes)\nno colon\nPages purgeable: 12.\n"

/-- A record whose fields hold 1 to 7 (and `UsedPercent` 0). -/
def vmsPrior : VirtualMemoryStat :=
  ⟨1, 2, 3, 0.0, 4, 5, 6, 7⟩

/-- The comma-separated tokens of an option string: `strings.Split(opts, ",")`. -/
def optTokens (opts : GoString) : List GoString :=
  Split opts 44

/-- A mount record with the flags MNT_GJOURNAL, MNT_NOATIME and MNT_NOCLUSTERR
of FreeBSD (`0x52000000`). -/
def statfsJournal : Statfs :=
  ⟨0x52000000, int8Array (str "ufs") 16, int8Array (str "/dev/ada0p2") 88,
    int8Array (str "/") 88⟩

/-- The byte slices `b` that the loop of `IOCountersWithContext` passes to
`parseDevstat`, in order, with `n = count - i` iterations left; `none` is a
panic of the slice expression. -/
def ioCountersSlices (E : DevstatEnv) (buf : ByteSlice) : Nat → Nat → Option (List (List Nat))
  | 0, _ => some []
  | n + 1, i =>
    match buf.slice (i * E.sizeOfDevstat) (i * E.sizeOfDevstat + E.sizeOfDevstat) with
    | none => none
    | some b => (ioCountersSlices E buf n (i + 1)).map (fun rest => b.bytes :: rest)

/-- The byte slices that `IOCountersWithContext` passes to the decoder, in
order: the blob is converted, the count computed, the header skipped and the
loop run; `none` when the sysctl read fails or a slice expression panics. -/
def IOCountersDecoded (E : DevstatEnv) : Option (List (List Nat)) :=
  match E.sysctl with
  | .error _ => none
  | .ok r =>
    let buf := ByteSlice.ofString r E.spare
    let length := buf.len
    let count := devstatCount length E.sizeOfDevstat
    match buf.sliceFrom 8 with
    | none => none
    | some buf => ioCountersSlices E buf count 0

/-- What one iteration of the loop of `IOCountersWithContext` does to the map
`ret` once its slice holds `bytes`: the decoder is applied to `bytes`; on a
decode error, or when the composed name is filtered out, the map is left as it
is; otherwise the record built is stored under the composed name. -/
def ioApply (E : DevstatEnv) (names : List GoString) (ret : IOMap) (bytes : List Nat) : IOMap :=
  match E.Read bytes with
  | .error _ => ret
  | .ok d =>
    if names.length > 0 ∧ StringsHas names (devName d) = false then ret
    else ret.set (devName d) (ioStatOf E d (devName d))

/-- The literal `BINTIME_SCALE` of `Bintime.Compute`, read as an exact
rational number. -/
def BINTIME_SCALE : ℚ := 5.42101086242752217003726400434970855712890625e-20

/-- The expression of `Bintime.Compute`,
`float64(b.Sec) + float64(b.Frac)*BINTIME_SCALE`, in exact rational arithmetic
(no rounding). -/
def Bintime.ComputeExact (b : Bintime) : ℚ :=
  (b.Sec : ℚ) + (b.Frac : ℚ) * BINTIME_SCALE

/-- A udev data file whose first line has 65536 bytes, followed by a line
`E:ID_SERIAL=ABC123`. -/
def udevLongLine : GoString :=
  List.replicate 65536 120 ++ 10 :: str "E:ID_SERIAL=ABC123\n"

/-! ## Lemmas: strings and numerals -/

theorem str_cutset : str " ." = [32, 46] := by decide

theorem Split_ne_nil (s : GoString) (sep : Nat) : Split s sep ≠ [] := by
  induction s with
  | nil => simp [Split]
  | cons c cs ih =>
    unfold Split
    split
    · simp
    · split <;> simp

theorem Split_no_sep (s : GoString) (sep : Nat) (h : sep ∉ s) : Split s sep = [s] := by
  induction s with
  | nil => simp [Split]
  | cons c cs ih =>
    have hc : c ≠ sep := fun e => h (by simp [e])
    have hcs : sep ∉ cs := fun e => h (by simp [e])
    rw [Split, if_neg hc, ih hcs]

theorem Split_at_sep (a rest : GoString) (sep : Nat) (h : sep ∉ a) :
    Split (a ++ sep :: rest) sep = a :: Split rest sep := by
  induction a with
  | nil => simp [Split]
  | cons c cs ih =>
    have hc : c ≠ sep := fun e => h (by simp [e])
    have hcs : sep ∉ cs := fun e => h (by simp [e])
    show Split (c :: (cs ++ sep :: rest)) sep = _
    rw [Split, if_neg hc, ih hcs]

/-- Every string either has no separator or splits at its first one. -/
theorem first_sep (s : GoString) (sep : Nat) :
    sep ∉ s ∨ ∃ a rest, s = a ++ sep :: rest ∧ sep ∉ a := by
  induction s with
  | nil => left; simp
  | cons c cs ih =>
    by_cases hc : c = sep
    · right; exact ⟨[], cs, by simp [hc], by simp⟩
    · rcases ih with h | ⟨a, rest, h1, h2⟩
      · left
        intro hm
        rcases List.mem_cons.mp hm with e | e
        · exact hc e.symm
        · exact h e
      · right
        refine ⟨c :: a, rest, by simp [h1], ?_⟩
        intro hm
        rcases List.mem_cons.mp hm with e | e
        · exact hc e.symm
        · exact h2 e

theorem Split_head (rest : GoString) (sep : Nat) :
    ∃ f1 fs, Split rest sep = f1 :: fs := by
  cases h : Split rest sep with
  | nil => exact absurd h (Split_ne_nil rest sep)
  | cons f1 fs => exact ⟨f1, fs, rfl⟩

theorem dropWhile_all {p : Nat → Bool} (a b : List Nat) (h : ∀ c ∈ a, p c = true) :
    (a ++ b).dropWhile p = b.dropWhile p := by
  induction a with
  | nil => rfl
  | cons c cs ih =>
    have hc : p c = true := h c (by simp)
    simp only [List.cons_append, List.dropWhile_cons, hc, if_true]
    exact ih (fun x hx => h x (by simp [hx]))

theorem Trim_numeral (pre ds post : List Nat)
    (hpre : ∀ c ∈ pre, c = 32 ∨ c = 46) (hpost : ∀ c ∈ post, c = 32 ∨ c = 46)
    (hds : ∀ c ∈ ds, 48 ≤ c ∧ c ≤ 57) :
    Trim (pre ++ ds ++ post) (str " .") = ds := by
  have hin : ∀ c, (c = 32 ∨ c = 46) → decide (c ∈ [32, 46]) = true := by
    intro c hc; rcases hc with rfl | rfl <;> decide
  have hout : ∀ c, (48 ≤ c ∧ c ≤ 57) → decide (c ∈ [32, 46]) = false := by
    intro c hc
    simp only [List.mem_cons, List.mem_singleton, List.mem_nil_iff, or_false, decide_eq_false_iff_not]
    omega
  unfold Trim
  rw [str_cutset, List.append_assoc, dropWhile_all pre _ (fun c hc => hin c (hpre c hc))]
  cases ds with
  | nil =>
    simp only [List.nil_append]
    have h1 : post.dropWhile (fun c => decide (c ∈ [32, 46])) = [] := by
      have := dropWhile_all (p := fun c => decide (c ∈ [32, 46])) post []
        (fun c hc => hin c (hpost c hc))
      simpa using this
    rw [h1]; rfl
  | cons d ds =>
    have h1 : ((d :: ds) ++ post).dropWhile (fun c => decide (c ∈ [32, 46])) = (d :: ds) ++ post := by
      simp only [List.cons_append, List.dropWhile_cons, hout d (hds d (by simp))]
      simp
    rw [h1, List.reverse_append,
      dropWhile_all post.reverse _ (fun c hc => hin c (hpost c (List.mem_reverse.mp hc)))]
    have h2 : ∀ (l : List Nat), l ≠ [] → (∀ c ∈ l, 48 ≤ c ∧ c ≤ 57) →
        l.dropWhile (fun c => decide (c ∈ [32, 46])) = l := by
      intro l hne hl
      cases l with
      | nil => exact absurd rfl hne
      | cons c cs =>
        simp only [List.dropWhile_cons, hout c (hl c (by simp))]
        simp
    rw [h2 _ (by simp) (fun c hc => hds c (List.mem_reverse.mp hc)), List.reverse_reverse]

theorem foldl_digits_ge (cs : List Nat) (n : Nat) :
    n ≤ cs.foldl (fun n c => n * 10 + (c - 48)) n := by
  induction cs generalizing n with
  | nil => exact Nat.le_refl _
  | cons c cs ih =>
    simp only [List.foldl_cons]
    exact Nat.le_trans (by omega) (ih _)

theorem parseUintLoop_digits (s0 ds : List Nat) (n : Nat)
    (hds : ∀ c ∈ ds, 48 ≤ c ∧ c ≤ 57)
    (hlt : ds.foldl (fun n c => n * 10 + (c - 48)) n < 2 ^ 64) :
    parseUintLoop s0 ds n = (ds.foldl (fun n c => n * 10 + (c - 48)) n, none) := by
  induction ds generalizing n with
  | nil => simp [parseUintLoop]
  | cons c cs ih =>
    have hc := hds c (by simp)
    simp only [List.foldl_cons] at hlt ⊢
    have hge := foldl_digits_ge cs (n * 10 + (c - 48))
    have hn : n * 10 + (c - 48) < 2 ^ 64 := Nat.lt_of_le_of_lt hge hlt
    have h64 : (2 : Nat) ^ 64 = 18446744073709551616 := by norm_num
    rw [h64] at hn
    unfold parseUintLoop
    simp only [hc.1, hc.2, and_self, if_true]
    have hd : ¬ (c - 48 ≥ 10) := by omega
    have hcut : ¬ (n ≥ maxUint64 / 10 + 1) := by
      simp only [maxUint64]; rw [h64]; omega
    have e1 : n * 10 % 2 ^ 64 = n * 10 := Nat.mod_eq_of_lt (by rw [h64]; omega)
    have e2 : (n * 10 + (c - 48)) % 2 ^ 64 = n * 10 + (c - 48) :=
      Nat.mod_eq_of_lt (by rw [h64]; omega)
    simp only [hd, hcut, if_false, e1, e2]
    have hno : ¬ (n * 10 + (c - 48) < n * 10 ∨ n * 10 + (c - 48) > maxUint64) := by
      simp only [maxUint64]; rw [h64]; omega
    rw [if_neg hno]
    exact ih _ (fun x hx => hds x (by simp [hx])) hlt

theorem ParseUint_numeral (ds : List Nat) (hne : ds ≠ [])
    (hds : ∀ c ∈ ds, 48 ≤ c ∧ c ≤ 57) (hlt : decVal ds < 2 ^ 64) :
    ParseUint ds = (decVal ds, none) := by
  unfold ParseUint
  rw [if_neg hne]
  exact parseUintLoop_digits ds ds 0 hds hlt

theorem parseUintLoop_lt (s0 cs : List Nat) (n : Nat) (hn : n < 2 ^ 64) :
    (parseUintLoop s0 cs n).1 < 2 ^ 64 := by
  induction cs generalizing n with
  | nil => simpa [parseUintLoop] using hn
  | cons c cs ih =>
    unfold parseUintLoop
    simp only
    split
    · norm_num
    · split
      · norm_num
      · split
        · simp only [maxUint64]; norm_num
        · split
          · simp only [maxUint64]; norm_num
          · exact ih _ (Nat.mod_lt _ (by norm_num))

theorem ParseUint_lt (s : GoString) : (ParseUint s).1 < 2 ^ 64 := by
  unfold ParseUint
  split
  · norm_num
  · exact parseUintLoop_lt s s 0 (by norm_num)

/-! ## Lemmas: one line of `vm_stat` output -/

theorem fldOf_key (f : Fld) : fldOf f.key = some f := by
  cases f <;> decide

theorem fldOf_eq_some {k : GoString} {f : Fld} (h : fldOf k = some f) : k = f.key := by
  unfold fldOf at h
  split at h
  · cases h; assumption
  · split at h
    · cases h; assumption
    · split at h
      · cases h; assumption
      · split at h
        · cases h; assumption
        · cases h

theorem Fld.get_set (f g : Fld) (x : Nat) (v : VirtualMemoryStat) :
    g.get (f.set x v) = if f = g then x else g.get v := by
  cases f <;> cases g <;> rfl

theorem parseVMStatLine_eq (ps : Nat) (st : VirtualMemoryStat × Option Error) (line : GoString) :
    parseVMStatLine ps st line =
      match lineKV line with
      | none => st
      | some (k, v) =>
        match fldOf k with
        | none => st
        | some f => (f.set ((ParseUint v).1 * ps % 2 ^ 64) st.1, keepErr st.2 (ParseUint v).2) := by
  unfold parseVMStatLine
  cases h : lineKV line with
  | none => rfl
  | some kv =>
    obtain ⟨k, v⟩ := kv
    simp only
    unfold fldOf
    by_cases h1 : k = str "Pages free"
    · simp only [h1, if_true]; rfl
    · by_cases h2 : k = str "Pages inactive"
      · simp only [h1, h2, if_true, if_false]; rfl
      · by_cases h3 : k = str "Pages active"
        · simp only [h1, h2, h3, if_true, if_false]; rfl
        · by_cases h4 : k = str "Pages wired down"
          · simp only [h1, h2, h3, h4, if_true, if_false]; rfl
          · simp only [h1, h2, h3, h4, if_false]

theorem lineKV_of_keyLine {line k rest : GoString} (h : KeyLine line k rest) :
    ∃ f1 fs, Split rest 58 = f1 :: fs ∧ lineKV line = some (k, Trim f1 (str " .")) := by
  obtain ⟨k0, hl, hk0, hk⟩ := h
  obtain ⟨f1, fs, hs⟩ := Split_head rest 58
  refine ⟨f1, fs, hs, ?_⟩
  unfold lineKV
  rw [hl, Split_at_sep k0 rest 58 hk0, hs]
  simp only [hk]

theorem keyLine_of_lineKV {line k v : GoString} (h : lineKV line = some (k, v)) :
    ∃ rest, KeyLine line k rest := by
  rcases first_sep line 58 with hno | ⟨a, rest, hl, ha⟩
  · unfold lineKV at h
    rw [Split_no_sep line 58 hno] at h
    cases h
  · refine ⟨rest, a, hl, ha, ?_⟩
    obtain ⟨f1, fs, hs⟩ := Split_head rest 58
    unfold lineKV at h
    rw [hl, Split_at_sep a rest 58 ha, hs] at h
    simp only [Option.some.injEq, Prod.mk.injEq] at h
    exact h.1

theorem numeral_no_colon {rest : GoString} {N : Nat} (h : IsNumeralField rest N) :
    (58 : Nat) ∉ rest := by
  obtain ⟨pre, ds, post, hr, hpre, hpost, _, hds, _, _⟩ := h
  intro hm
  rw [hr] at hm
  rcases List.mem_append.mp hm with hm | hm
  · rcases List.mem_append.mp hm with hm | hm
    · have := hpre 58 hm; omega
    · have := hds 58 hm; omega
  · have := hpost 58 hm; omega

theorem lineKV_numeral {line k rest : GoString} {N : Nat}
    (h : KeyLine line k rest) (hn : IsNumeralField rest N) :
    ∃ v, lineKV line = some (k, v) ∧ ParseUint v = (N, none) := by
  obtain ⟨f1, fs, hs, hkv⟩ := lineKV_of_keyLine h
  rw [Split_no_sep rest 58 (numeral_no_colon hn)] at hs
  obtain ⟨pre, ds, post, hr, hpre, hpost, hne, hds, hval, hlt⟩ := hn
  have hf1 : f1 = rest := by
    simp only [List.cons.injEq] at hs
    exact hs.1.symm
  refine ⟨ds, ?_, ?_⟩
  · rw [hkv, hf1, hr, Trim_numeral pre ds post hpre hpost hds]
  · rw [ParseUint_numeral ds hne hds (by rw [hval]; exact hlt), hval]

/-! ## Lemmas: the loop of `parseVMStat` -/

theorem parseVMStatLine_get_other (ps : Nat) (st : VirtualMemoryStat × Option Error)
    (line : GoString) (f : Fld) (h : ∀ v, lineKV line ≠ some (f.key, v)) :
    f.get (parseVMStatLine ps st line).1 = f.get st.1 := by
  rw [parseVMStatLine_eq]
  cases hkv : lineKV line with
  | none => rfl
  | some kv =>
    obtain ⟨k, v⟩ := kv
    simp only
    cases hf : fldOf k with
    | none => rfl
    | some g =>
      simp only
      rw [Fld.get_set]
      have hne : g ≠ f := by
        intro e
        apply h v
        rw [hkv, fldOf_eq_some hf, e]
      rw [if_neg hne]

theorem parseVMStatLine_get_key (ps : Nat) (st : VirtualMemoryStat × Option Error)
    (line : GoString) (f : Fld) (v : GoString) (h : lineKV line = some (f.key, v)) :
    f.get (parseVMStatLine ps st line).1 = (ParseUint v).1 * ps % 2 ^ 64 ∧
      (parseVMStatLine ps st line).2 = keepErr st.2 (ParseUint v).2 := by
  rw [parseVMStatLine_eq, h]
  simp only [fldOf_key, Fld.get_set, if_true, and_self]

theorem parseVMStatLine_err_keep (ps : Nat) (st : VirtualMemoryStat × Option Error)
    (line : GoString)
    (h : ∀ k v f, lineKV line = some (k, v) → fldOf k = some f → (ParseUint v).2 = none) :
    (parseVMStatLine ps st line).2 = st.2 := by
  rw [parseVMStatLine_eq]
  cases hkv : lineKV line with
  | none => rfl
  | some kv =>
    obtain ⟨k, v⟩ := kv
    simp only
    cases hf : fldOf k with
    | none => rfl
    | some g =>
      simp only
      rw [h k v g hkv hf]
      rfl

theorem fold_get_other (ps : Nat) (f : Fld) (ls : List GoString)
    (st : VirtualMemoryStat × Option Error)
    (h : ∀ l ∈ ls, ∀ v, lineKV l ≠ some (f.key, v)) :
    f.get (ls.foldl (parseVMStatLine ps) st).1 = f.get st.1 := by
  induction ls generalizing st with
  | nil => rfl
  | cons l ls ih =>
    simp only [List.foldl_cons]
    rw [ih _ (fun x hx => h x (by simp [hx]))]
    exact parseVMStatLine_get_other ps st l f (h l (by simp))

theorem fold_err_keep (ps : Nat) (ls : List GoString) (st : VirtualMemoryStat × Option Error)
    (h : ∀ l ∈ ls, ∀ k v f, lineKV l = some (k, v) → fldOf k = some f →
      (ParseUint v).2 = none) :
    (ls.foldl (parseVMStatLine ps) st).2 = st.2 := by
  induction ls generalizing st with
  | nil => rfl
  | cons l ls ih =>
    simp only [List.foldl_cons]
    rw [ih _ (fun x hx => h x (by simp [hx]))]
    exact parseVMStatLine_err_keep ps st l (h l (by simp))

theorem fold_get_last (ps : Nat) (f : Fld) (l1 l2 : List GoString) (line v : GoString)
    (st : VirtualMemoryStat × Option Error)
    (hkv : lineKV line = some (f.key, v))
    (hl2 : ∀ l ∈ l2, ∀ w, lineKV l ≠ some (f.key, w)) :
    f.get ((l1 ++ line :: l2).foldl (parseVMStatLine ps) st).1 =
      (ParseUint v).1 * ps % 2 ^ 64 := by
  rw [List.foldl_append, List.foldl_cons, fold_get_other ps f l2 _ hl2]
  exact (parseVMStatLine_get_key ps _ line f v hkv).1

theorem fold_frame (ps : Nat) (ls : List GoString) (st : VirtualMemoryStat × Option Error) :
    (ls.foldl (parseVMStatLine ps) st).1.Total = st.1.Total ∧
    (ls.foldl (parseVMStatLine ps) st).1.Available = st.1.Available ∧
    (ls.foldl (parseVMStatLine ps) st).1.Used = st.1.Used ∧
    (ls.foldl (parseVMStatLine ps) st).1.UsedPercent = st.1.UsedPercent := by
  induction ls generalizing st with
  | nil => exact ⟨rfl, rfl, rfl, rfl⟩
  | cons l ls ih =>
    simp only [List.foldl_cons]
    have h := ih (parseVMStatLine ps st l)
    have h1 : (parseVMStatLine ps st l).1.Total = st.1.Total ∧
        (parseVMStatLine ps st l).1.Available = st.1.Available ∧
        (parseVMStatLine ps st l).1.Used = st.1.Used ∧
        (parseVMStatLine ps st l).1.UsedPercent = st.1.UsedPercent := by
      rw [parseVMStatLine_eq]
      cases lineKV l with
      | none => exact ⟨rfl, rfl, rfl, rfl⟩
      | some kv =>
        obtain ⟨k, v⟩ := kv
        simp only
        cases fldOf k with
        | none => exact ⟨rfl, rfl, rfl, rfl⟩
        | some g => cases g <;> exact ⟨rfl, rfl, rfl, rfl⟩
    exact ⟨h.1.trans h1.1, h.2.1.trans h1.2.1, h.2.2.1.trans h1.2.2.1, h.2.2.2.trans h1.2.2.2⟩

theorem fold_bound (ps : Nat) (ls : List GoString) (st : VirtualMemoryStat × Option Error)
    (h : ∀ f : Fld, f.get st.1 < 2 ^ 64) :
    ∀ f : Fld, f.get (ls.foldl (parseVMStatLine ps) st).1 < 2 ^ 64 := by
  induction ls generalizing st with
  | nil => exact h
  | cons l ls ih =>
    simp only [List.foldl_cons]
    apply ih
    intro f
    rw [parseVMStatLine_eq]
    cases lineKV l with
    | none => exact h f
    | some kv =>
      obtain ⟨k, v⟩ := kv
      simp only
      cases fldOf k with
      | none => exact h f
      | some g =>
        simp only
        rw [Fld.get_set]
        split
        · exact Nat.mod_lt _ (by norm_num)
        · exact h f

theorem getVMStat_bound (E : MemEnv) (f : Fld) :
    f.get (getVMStat E VirtualMemoryStat.zero).1 < 2 ^ 64 := by
  unfold getVMStat
  cases E.vmStat with
  | error e => cases f <;> simp [Fld.get, VirtualMemoryStat.zero]
  | ok out =>
    simp only
    unfold parseVMStat
    apply fold_bound
    intro g
    cases g <;> simp [Fld.get, VirtualMemoryStat.zero]

theorem fold_err_last (ps : Nat) (l1 l2 : List GoString) (line v : GoString) (f : Fld)
    (e : Error) (st : VirtualMemoryStat × Option Error)
    (hkv : lineKV line = some (f.key, v)) (he : (ParseUint v).2 = some e)
    (hl2 : ∀ l ∈ l2, ∀ (g : Fld) w, lineKV l = some (g.key, w) → (ParseUint w).2 = none) :
    ((l1 ++ line :: l2).foldl (parseVMStatLine ps) st).2 = some e := by
  rw [List.foldl_append, List.foldl_cons, fold_err_keep ps l2]
  · rw [(parseVMStatLine_get_key ps _ line f v hkv).2, he]
    rfl
  · intro l hl k w g hk hg
    rw [fldOf_eq_some hg] at hk
    exact hl2 l hl g w hk

theorem parseUintLoop_syntax_zero (s0 cs : List Nat) (n : Nat) (e : NumError)
    (h : (parseUintLoop s0 cs n).2 = some (Error.num e)) (he : e.Err = ErrKind.ErrSyntax) :
    (parseUintLoop s0 cs n).1 = 0 := by
  induction cs generalizing n with
  | nil => simp [parseUintLoop] at h
  | cons c cs ih =>
    unfold parseUintLoop at h ⊢
    simp only at h ⊢
    split
    · rfl
    · rename_i d hd
      simp only [hd] at h
      split
      · rfl
      · rename_i h1
        rw [if_neg h1] at h
        split
        · rename_i h2
          rw [if_pos h2] at h
          simp only [Option.some.injEq, Error.num.injEq] at h
          rw [← h] at he
          cases he
        · rename_i h2
          rw [if_neg h2] at h
          split
          · rename_i h3
            rw [if_pos h3] at h
            simp only [Option.some.injEq, Error.num.injEq] at h
            rw [← h] at he
            cases he
          · rename_i h3
            rw [if_neg h3] at h
            exact ih _ h

theorem ParseUint_syntax_zero (v : GoString) (e : NumError)
    (h : (ParseUint v).2 = some (Error.num e)) (he : e.Err = ErrKind.ErrSyntax) :
    (ParseUint v).1 = 0 := by
  unfold ParseUint at h ⊢
  split
  · rfl
  · rename_i hv
    rw [if_neg hv] at h
    exact parseUintLoop_syntax_zero v v 0 e h he

theorem fold_unchanged (ps : Nat) (ls : List GoString) (st : VirtualMemoryStat × Option Error)
    (h : ∀ l ∈ ls, ∀ k v, lineKV l = some (k, v) → fldOf k = none) :
    ls.foldl (parseVMStatLine ps) st = st := by
  induction ls generalizing st with
  | nil => rfl
  | cons l ls ih =>
    simp only [List.foldl_cons]
    have h1 : parseVMStatLine ps st l = st := by
      rw [parseVMStatLine_eq]
      cases hkv : lineKV l with
      | none => rfl
      | some kv =>
        obtain ⟨k, v⟩ := kv
        simp only [h l (by simp) k v hkv]
    rw [h1]
    exact ih st (fun x hx => h x (by simp [hx]))

theorem fldOf_none_of_ne {k : GoString} (h : ∀ f : Fld, k ≠ f.key) : fldOf k = none := by
  cases hf : fldOf k with
  | none => rfl
  | some f => exact absurd (fldOf_eq_some hf) (h f)

theorem VirtualMemory_ok_fields (E : MemEnv) (r : VirtualMemoryStat)
    (h : VirtualMemory E = Result.ok r) :
    r.Available = (r.Free + r.Inactive) % 2 ^ 64 ∧
    r.Used = (r.Total + 2 ^ 64 - r.Free) % 2 ^ 64 ∧
    r.Total < 2 ^ 64 ∧ r.Free < 2 ^ 64 ∧ r.Inactive < 2 ^ 64 := by
  unfold VirtualMemory at h
  split at h
  · cases h
  · cases h
  · rename_i t0 ts hm
    split at h
    · cases h
    · rename_i total hp
      split at h
      · cases h
      · rename_i ret hg
        simp only [Result.ok.injEq] at h
        subst h
        have ht : total < 2 ^ 64 := by
          have := ParseUint_lt t0
          rw [hp] at this
          exact this
        have hF : ret.Free < 2 ^ 64 := by
          have := getVMStat_bound E Fld.free
          rw [hg] at this
          exact this
        have hI : ret.Inactive < 2 ^ 64 := by
          have := getVMStat_bound E Fld.inactive
          rw [hg] at this
          exact this
        exact ⟨rfl, rfl, ht, hF, hI⟩

theorem keyLine_unique {a r k rest : GoString} (h : KeyLine (a ++ 58 :: r) k rest)
    (ha : (58 : Nat) ∉ a) : rest = r ∧ k = TrimSpace a := by
  obtain ⟨k0, hl, hk0, hk⟩ := h
  have h1 := Split_at_sep a r 58 ha
  rw [hl, Split_at_sep k0 rest 58 hk0] at h1
  simp only [List.cons.injEq] at h1
  rw [h1.1] at hl hk
  have h2 := List.append_cancel_left hl
  simp only [List.cons.injEq, true_and] at h2
  exact ⟨h2.symm, hk.symm⟩

theorem not_keyLine_of_no_colon {line k rest : GoString} (h : (58 : Nat) ∉ line) :
    ¬ KeyLine line k rest := by
  rintro ⟨k0, hl, _, _⟩
  exact h (by rw [hl]; simp)

/-! ## Theorems: mem -/

/-- C1: if every line of the output whose trimmed key is one of
"Pages free", "Pages inactive", "Pages active", "Pages wired down" has, after
its first colon, a decimal numeral N < 2^64 surrounded only by spaces and
periods, then for every page size `parseVMStat` returns no error, each of the
four fields equals N * pagesize mod 2^64 for the last line carrying its key,
and a field whose key no line carries is unchanged. -/
theorem parseVMStat_wellformed (pagesize : Nat) (out : GoString) (vms : VirtualMemoryStat)
    (H : ∀ line ∈ Split out 10, ∀ f : Fld, ∀ rest,
      KeyLine line f.key rest → ∃ N, IsNumeralField rest N) :
    (parseVMStat out pagesize vms).2 = none ∧
    ∀ f : Fld,
      (∀ l1 line l2 rest N, Split out 10 = l1 ++ line :: l2 → KeyLine line f.key rest →
          (∀ l ∈ l2, ∀ r, ¬ KeyLine l f.key r) → IsNumeralField rest N →
          f.get (parseVMStat out pagesize vms).1 = N * pagesize % 2 ^ 64) ∧
      ((∀ l ∈ Split out 10, ∀ r, ¬ KeyLine l f.key r) →
          f.get (parseVMStat out pagesize vms).1 = f.get vms) := by
  refine ⟨?_, fun f => ⟨?_, ?_⟩⟩
  · unfold parseVMStat
    rw [fold_err_keep]
    intro l hl k v f hkv hf
    obtain ⟨rest, hkl⟩ := keyLine_of_lineKV hkv
    rw [fldOf_eq_some hf] at hkl hkv
    obtain ⟨N, hN⟩ := H l hl f rest hkl
    obtain ⟨v', hkv', hp⟩ := lineKV_numeral hkl hN
    rw [hkv] at hkv'
    simp only [Option.some.injEq, Prod.mk.injEq, true_and] at hkv'
    rw [hkv', hp]
  · intro l1 line l2 rest N hs hkl hl2 hN
    obtain ⟨v, hkv, hp⟩ := lineKV_numeral hkl hN
    unfold parseVMStat
    rw [hs, fold_get_last pagesize f l1 l2 line v _ hkv, hp]
    intro l hl w hw
    obtain ⟨r, hr⟩ := keyLine_of_lineKV hw
    exact hl2 l hl r hr
  · intro hno
    unfold parseVMStat
    rw [fold_get_other]
    intro l hl v hv
    obtain ⟨r, hr⟩ := keyLine_of_lineKV hv
    exact hno l hl r hr

/-- C1, witness: the report "Pages free: 1000.\nPages active: 500.\nPages wired
down: 200.\n" with page size 4096 gives no error, Free = 4096000,
Active = 2048000, Wired = 819200 and Inactive unchanged (0). -/
theorem parseVMStat_wellformed_witness :
    (parseVMStat vmStatSample 4096 VirtualMemoryStat.zero).2 = none ∧
    (parseVMStat vmStatSample 4096 VirtualMemoryStat.zero).1.Free = 4096000 ∧
    (parseVMStat vmStatSample 4096 VirtualMemoryStat.zero).1.Active = 2048000 ∧
    (parseVMStat vmStatSample 4096 VirtualMemoryStat.zero).1.Wired = 819200 ∧
    (parseVMStat vmStatSample 4096 VirtualMemoryStat.zero).1.Inactive = 0 := by
  have hlines : Split vmStatSample 10 =
      [] ++ (str "Pages free" ++ 58 :: str " 1000.") ::
        [str "Pages active" ++ 58 :: str " 500.", str "Pages wired down" ++ 58 :: str " 200.",
          []] := by decide
  have hlines2 : Split vmStatSample 10 =
      [str "Pages free" ++ 58 :: str " 1000."] ++ (str "Pages active" ++ 58 :: str " 500.") ::
        [str "Pages wired down" ++ 58 :: str " 200.", []] := by decide
  have hlines3 : Split vmStatSample 10 =
      [str "Pages free" ++ 58 :: str " 1000.", str "Pages active" ++ 58 :: str " 500."] ++
        (str "Pages wired down" ++ 58 :: str " 200.") :: [[]] := by decide
  have n1 : IsNumeralField (str " 1000.") 1000 :=
    ⟨[32], str "1000", [46], by decide, by decide, by decide, by decide, by decide, by decide,
      by norm_num⟩
  have n2 : IsNumeralField (str " 500.") 500 :=
    ⟨[32], str "500", [46], by decide, by decide, by decide, by decide, by decide, by decide,
      by norm_num⟩
  have n3 : IsNumeralField (str " 200.") 200 :=
    ⟨[32], str "200", [46], by decide, by decide, by decide, by decide, by decide, by decide,
      by norm_num⟩
  have c1 : (58 : Nat) ∉ str "Pages free" := by decide
  have c2 : (58 : Nat) ∉ str "Pages active" := by decide
  have c3 : (58 : Nat) ∉ str "Pages wired down" := by decide
  have c4 : (58 : Nat) ∉ ([] : GoString) := by decide
  have hyp : ∀ line ∈ Split vmStatSample 10, ∀ f : Fld, ∀ rest,
      KeyLine line f.key rest → ∃ N, IsNumeralField rest N := by
    rw [hlines]
    intro line hl f rest hk
    simp only [List.nil_append, List.mem_cons, List.mem_singleton] at hl
    rcases hl with rfl | rfl | rfl | hl
    · rw [(keyLine_unique hk c1).1]; exact ⟨_, n1⟩
    · rw [(keyLine_unique hk c2).1]; exact ⟨_, n2⟩
    · rw [(keyLine_unique hk c3).1]; exact ⟨_, n3⟩
    · rcases hl with rfl | hl
      · exact absurd hk (not_keyLine_of_no_colon c4)
      · cases hl
  have h := parseVMStat_wellformed 4096 vmStatSample VirtualMemoryStat.zero hyp
  have k1 : ∀ f : Fld, ∀ r, KeyLine (str "Pages free" ++ 58 :: str " 1000.") f.key r →
      f = Fld.free := by
    intro f r hk
    have := (keyLine_unique hk c1).2
    revert this; cases f <;> decide
  have k2 : ∀ f : Fld, ∀ r, KeyLine (str "Pages active" ++ 58 :: str " 500.") f.key r →
      f = Fld.active := by
    intro f r hk
    have := (keyLine_unique hk c2).2
    revert this; cases f <;> decide
  have k3 : ∀ f : Fld, ∀ r, KeyLine (str "Pages wired down" ++ 58 :: str " 200.") f.key r →
      f = Fld.wired := by
    intro f r hk
    have := (keyLine_unique hk c3).2
    revert this; cases f <;> decide
  refine ⟨h.1, ?_, ?_, ?_, ?_⟩
  · have := (h.2 Fld.free).1 _ _ _ _ 1000 hlines ⟨_, rfl, c1, by decide⟩ (by
      intro l hl r hk
      simp only [List.mem_cons, List.mem_singleton] at hl
      rcases hl with rfl | rfl | hl
      · exact absurd (k2 _ _ hk) (by decide)
      · exact absurd (k3 _ _ hk) (by decide)
      · rcases hl with rfl | hl
        · exact not_keyLine_of_no_colon c4 hk
        · cases hl) n1
    simpa [Fld.get] using this
  · have := (h.2 Fld.active).1 _ _ _ _ 500 hlines2 ⟨_, rfl, c2, by decide⟩ (by
      intro l hl r hk
      simp only [List.mem_cons, List.mem_singleton] at hl
      rcases hl with rfl | hl
      · exact absurd (k3 _ _ hk) (by decide)
      · rcases hl with rfl | hl
        · exact not_keyLine_of_no_colon c4 hk
        · cases hl) n2
    simpa [Fld.get] using this
  · have := (h.2 Fld.wired).1 _ _ _ _ 200 hlines3 ⟨_, rfl, c3, by decide⟩ (by
      intro l hl r hk
      simp only [List.mem_cons, List.mem_singleton] at hl
      rcases hl with rfl | hl
      · exact not_keyLine_of_no_colon c4 hk
      · cases hl) n3
    simpa [Fld.get] using this
  · have := (h.2 Fld.inactive).2 (by
      rw [hlines]
      intro l hl r hk
      simp only [List.nil_append, List.mem_cons, List.mem_singleton] at hl
      rcases hl with rfl | rfl | rfl | hl
      · exact absurd (k1 _ _ hk) (by decide)
      · exact absurd (k2 _ _ hk) (by decide)
      · exact absurd (k3 _ _ hk) (by decide)
      · rcases hl with rfl | hl
        · exact not_keyLine_of_no_colon c4 hk
        · cases hl)
    simpa [Fld.get, VirtualMemoryStat.zero] using this

/-- C2, counterexample: with 2^51 free and 2^51 inactive pages of 4096 bytes
and 8,000,000 bytes of memory, `VirtualMemory` returns a record whose Available
is 0, not Free + Inactive = 2^64, and whose Used is 2^63 + 8,000,000, not
Total - Free. -/
theorem VirtualMemory_derived_wraps :
    ∃ r, VirtualMemory memEnvWrap = Result.ok r ∧
      r.Free = 2 ^ 63 ∧ r.Inactive = 2 ^ 63 ∧ r.Total = 8000000 ∧
      r.Available = 0 ∧ r.Used = 2 ^ 63 + 8000000 ∧
      r.Available ≠ r.Free + r.Inactive ∧ (r.Used : Int) ≠ (r.Total : Int) - (r.Free : Int) :=
  ⟨_, rfl, by decide, by decide, by decide, by decide, by decide, by decide, by decide⟩

/-- C2, amended: for every environment, a record returned by `VirtualMemory`
has Available = (Free + Inactive) mod 2^64 and Used = (Total - Free) mod 2^64;
the first is the equation over the natural numbers exactly when
Free + Inactive < 2^64, the second exactly when Free <= Total. -/
theorem VirtualMemory_derived (E : MemEnv) (r : VirtualMemoryStat)
    (h : VirtualMemory E = Result.ok r) :
    r.Available = (r.Free + r.Inactive) % 2 ^ 64 ∧
    (r.Used : Int) = ((r.Total : Int) - (r.Free : Int)) % 2 ^ 64 ∧
    (r.Available = r.Free + r.Inactive ↔ r.Free + r.Inactive < 2 ^ 64) ∧
    ((r.Used : Int) = (r.Total : Int) - (r.Free : Int) ↔ r.Free ≤ r.Total) := by
  unfold VirtualMemory at h
  split at h
  · cases h
  · cases h
  · rename_i t0 ts hm
    split at h
    · cases h
    · rename_i total hp
      split at h
      · cases h
      · rename_i ret hg
        simp only [Result.ok.injEq] at h
        subst h
        have ht : total < 2 ^ 64 := by
          have := ParseUint_lt t0
          rw [hp] at this
          exact this
        have hF : ret.Free < 2 ^ 64 := by
          have := getVMStat_bound E Fld.free
          rw [hg] at this
          exact this
        have h64 : (2 : Nat) ^ 64 = 18446744073709551616 := by norm_num
        have h64i : (2 : Int) ^ 64 = 18446744073709551616 := by norm_num
        rw [h64] at ht hF
        show (ret.Free + ret.Inactive) % 2 ^ 64 = (ret.Free + ret.Inactive) % 2 ^ 64 ∧
          (((total + 2 ^ 64 - ret.Free) % 2 ^ 64 : Nat) : Int) =
            ((total : Int) - (ret.Free : Int)) % 2 ^ 64 ∧
          ((ret.Free + ret.Inactive) % 2 ^ 64 = ret.Free + ret.Inactive ↔
            ret.Free + ret.Inactive < 2 ^ 64) ∧
          ((((total + 2 ^ 64 - ret.Free) % 2 ^ 64 : Nat) : Int) =
            (total : Int) - (ret.Free : Int) ↔ ret.Free ≤ total)
        rw [h64, h64i]
        refine ⟨rfl, ?_, ?_, ?_⟩
        · omega
        · omega
        · omega

/-- C2, witness: total 8,000,000, free 4,096,000 and inactive 0 give Available
4,096,000 and Used 3,904,000. -/
theorem VirtualMemory_derived_witness :
    ∃ r, VirtualMemory memEnvSample = Result.ok r ∧
      (r.Total = 8000000 ∧ r.Free = 4096000 ∧ r.Inactive = 0 ∧
        r.Available = 4096000 ∧ r.Used = 3904000) ∧
      (r.Available = (r.Free + r.Inactive) % 2 ^ 64 ∧
        (r.Used : Int) = ((r.Total : Int) - (r.Free : Int)) % 2 ^ 64 ∧
        (r.Available = r.Free + r.Inactive ↔ r.Free + r.Inactive < 2 ^ 64) ∧
        ((r.Used : Int) = (r.Total : Int) - (r.Free : Int) ↔ r.Free ≤ r.Total)) :=
  ⟨_, rfl, ⟨by decide, by decide, by decide, by decide, by decide⟩,
    VirtualMemory_derived memEnvSample _ rfl⟩

/-- C9, counterexample: in the report "Pages free: 1\nPages free: x\nPages
active: 18446744073709551615\n" with page size 4096 the second line fails to
parse; the first line parses with N = 1, yet Free is 0 in the output record,
not 1 * 4096; the third line parses with N = 2^64 - 1, yet Active is
2^64 - 4096, not N * 4096. -/
theorem parseVMStat_parsed_line_not_kept :
    Split vmStatMixed 10 =
      [str "Pages free: 1", str "Pages free: x", str "Pages active: 18446744073709551615", []] ∧
    lineKV (str "Pages free: 1") = some (str "Pages free", str "1") ∧
    ParseUint (str "1") = (1, none) ∧
    lineKV (str "Pages free: x") = some (str "Pages free", str "x") ∧
    (ParseUint (str "x")).2 ≠ none ∧
    lineKV (str "Pages active: 18446744073709551615") =
      some (str "Pages active", str "18446744073709551615") ∧
    ParseUint (str "18446744073709551615") = (18446744073709551615, none) ∧
    (parseVMStat vmStatMixed 4096 VirtualMemoryStat.zero).1.Free = 0 ∧
    (parseVMStat vmStatMixed 4096 VirtualMemoryStat.zero).1.Free ≠ 1 * 4096 ∧
    (parseVMStat vmStatMixed 4096 VirtualMemoryStat.zero).1.Active = 2 ^ 64 - 4096 ∧
    (parseVMStat vmStatMixed 4096 VirtualMemoryStat.zero).1.Active ≠
      18446744073709551615 * 4096 := by
  refine ⟨by decide, by decide, by decide, by decide, by decide, by decide, by decide,
    by decide, by decide, by decide, by decide⟩

/-- C9, amended: `parseVMStat` scans every line; it returns the parse error of
the last recognised line whose value fails to parse; a recognised line whose
value parses as N and which is the last line carrying its key has its field
equal to N * pagesize mod 2^64 in the output record, whether or not other
lines fail; when no recognised line fails, the returned error is nil. -/
theorem parseVMStat_errors (out : GoString) (pagesize : Nat) (vms : VirtualMemoryStat) :
    (∀ l1 line l2 (f : Fld) v e, Split out 10 = l1 ++ line :: l2 →
        lineKV line = some (f.key, v) → (ParseUint v).2 = some e →
        (∀ l ∈ l2, ∀ (g : Fld) w, lineKV l = some (g.key, w) → (ParseUint w).2 = none) →
        (parseVMStat out pagesize vms).2 = some e) ∧
    (∀ l1 line l2 (f : Fld) v, Split out 10 = l1 ++ line :: l2 →
        lineKV line = some (f.key, v) → (ParseUint v).2 = none →
        (∀ l ∈ l2, ∀ w, lineKV l ≠ some (f.key, w)) →
        f.get (parseVMStat out pagesize vms).1 = (ParseUint v).1 * pagesize % 2 ^ 64) ∧
    ((∀ l ∈ Split out 10, ∀ (g : Fld) w, lineKV l = some (g.key, w) →
        (ParseUint w).2 = none) →
      (parseVMStat out pagesize vms).2 = none) := by
  refine ⟨?_, ?_, ?_⟩
  · intro l1 line l2 f v e hs hkv he hl2
    unfold parseVMStat
    rw [hs]
    exact fold_err_last pagesize l1 l2 line v f e _ hkv he hl2
  · intro l1 line l2 f v hs hkv _ hl2
    unfold parseVMStat
    rw [hs]
    exact fold_get_last pagesize f l1 l2 line v _ hkv hl2
  · intro h
    unfold parseVMStat
    rw [fold_err_keep]
    intro l hl k w g hk hg
    rw [fldOf_eq_some hg] at hk
    exact h l hl g w hk

/-- C9, witness: in the report `vmStatMixed` the returned error is the syntax
error of the second line "Pages free: x", and the third line, which parses
and is the last of its key, sets Active to (2^64 - 1) * 4096 mod 2^64. -/
theorem parseVMStat_errors_witness :
    (parseVMStat vmStatMixed 4096 VirtualMemoryStat.zero).2 =
      some (Error.num ⟨"ParseUint", str "x", ErrKind.ErrSyntax⟩) ∧
    (parseVMStat vmStatMixed 4096 VirtualMemoryStat.zero).1.Active =
      18446744073709551615 * 4096 % 2 ^ 64 ∧
    (parseVMStat (str "no colon here") 4096 VirtualMemoryStat.zero).2 = none := by
  have h := parseVMStat_errors vmStatMixed 4096 VirtualMemoryStat.zero
  have h0 := parseVMStat_errors (str "no colon here") 4096 VirtualMemoryStat.zero
  refine ⟨?_, ?_, ?_⟩
  · exact h.1 [str "Pages free: 1"] (str "Pages free: x")
      [str "Pages active: 18446744073709551615", []] Fld.free (str "x") _
      (by decide) (by decide) (by decide) (by
        intro l hl g w hk
        simp only [List.mem_cons, List.mem_singleton] at hl
        rcases hl with rfl | hl
        · have e1 : lineKV (str "Pages active: 18446744073709551615") =
              some (str "Pages active", str "18446744073709551615") := by decide
          rw [e1] at hk
          simp only [Option.some.injEq, Prod.mk.injEq] at hk
          rw [← hk.2]
          decide
        · rcases hl with rfl | hl
          · have e2 : lineKV [] = none := by decide
            rw [e2] at hk
            cases hk
          · cases hl)
  · have := h.2.1 [str "Pages free: 1", str "Pages free: x"]
      (str "Pages active: 18446744073709551615") [[]] Fld.active
      (str "18446744073709551615") (by decide) (by decide) (by decide) (by
        intro l hl w
        simp only [List.mem_cons, List.mem_singleton] at hl
        rcases hl with rfl | hl
        · have e2 : lineKV [] = none := by decide
          rw [e2]
          exact fun hk => Option.noConfusion hk
        · cases hl)
    have e3 : (ParseUint (str "18446744073709551615")).1 = 18446744073709551615 := by decide
    rw [e3] at this
    exact this
  · apply h0.2.2
    intro l hl g w hk
    have e4 : Split (str "no colon here") 10 = [str "no colon here"] := by decide
    rw [e4] at hl
    simp only [List.mem_singleton] at hl
    subst hl
    have e5 : lineKV (str "no colon here") = none := by decide
    rw [e5] at hk
    cases hk

/-- C10, counterexample: with the report `vmStatMixed`, whose second line fails
to parse, `VirtualMemory` returns the error and a nil record: no partially
populated record is returned. -/
theorem VirtualMemory_parse_error_no_record :
    VirtualMemory memEnvMixed =
      Result.err (Error.num ⟨"ParseUint", str "x", ErrKind.ErrSyntax⟩) ∧
    ∀ r, VirtualMemory memEnvMixed ≠ Result.ok r := by
  have h : VirtualMemory memEnvMixed =
      Result.err (Error.num ⟨"ParseUint", str "x", ErrKind.ErrSyntax⟩) := rfl
  refine ⟨h, ?_⟩
  intro r hr
  rw [h] at hr
  cases hr

/-- C10, amended: when the total parses and the last recognised line of the
report whose value fails numeric conversion fails with error `e`, then
`VirtualMemory` returns `e` together with a nil record; the partially
populated record is discarded. -/
theorem VirtualMemory_parse_error (E : MemEnv) (t0 : GoString) (ts : List GoString)
    (total : Nat) (out : GoString) (l1 : List GoString) (line : GoString)
    (l2 : List GoString) (f : Fld) (v : GoString) (e : Error)
    (hm : E.memsize = .ok (t0 :: ts)) (ht : ParseUint t0 = (total, none))
    (hv : E.vmStat = .ok out) (hs : Split out 10 = l1 ++ line :: l2)
    (hkv : lineKV line = some (f.key, v)) (he : (ParseUint v).2 = some e)
    (hl2 : ∀ l ∈ l2, ∀ (g : Fld) w, lineKV l = some (g.key, w) → (ParseUint w).2 = none) :
    VirtualMemory E = Result.err e := by
  have hp : (parseVMStat out E.pagesize VirtualMemoryStat.zero).2 = some e := by
    unfold parseVMStat
    rw [hs]
    exact fold_err_last E.pagesize l1 l2 line v f e _ hkv he hl2
  have hg : getVMStat E VirtualMemoryStat.zero =
      ((parseVMStat out E.pagesize VirtualMemoryStat.zero).1, some e) := by
    unfold getVMStat
    rw [hv]
    simp only
    rw [← hp]
  unfold VirtualMemory
  rw [hm]
  simp only [ht, hg]

/-- C10, witness: the environment `memEnvMixed`. -/
theorem VirtualMemory_parse_error_witness :
    VirtualMemory memEnvMixed =
      Result.err (Error.num ⟨"ParseUint", str "x", ErrKind.ErrSyntax⟩) :=
  VirtualMemory_parse_error memEnvMixed (str "8000000") [] 8000000 vmStatMixed
    [str "Pages free: 1"] (str "Pages free: x")
    [str "Pages active: 18446744073709551615", []] Fld.free (str "x") _
    rfl (by decide) rfl (by decide) (by decide) (by decide) (by
      intro l hl g w hk
      simp only [List.mem_cons, List.mem_singleton] at hl
      rcases hl with rfl | hl
      · have e1 : lineKV (str "Pages active: 18446744073709551615") =
            some (str "Pages active", str "18446744073709551615") := by decide
        rw [e1] at hk
        simp only [Option.some.injEq, Prod.mk.injEq] at hk
        rw [← hk.2]
        decide
      · rcases hl with rfl | hl
        · have e2 : lineKV [] = none := by decide
          rw [e2] at hk
          cases hk
        · cases hl)

/-! ## Lemmas: the option string -/

theorem foldl_opts (f : Nat) (t : List (Nat × GoString)) (base : GoString) :
    t.foldl (fun opts e => if f &&& e.1 ≠ 0 then opts ++ 44 :: e.2 else opts) base =
      base ++ (t.filter (fun e => decide (f &&& e.1 ≠ 0))).flatMap (fun e => 44 :: e.2) := by
  induction t generalizing base with
  | nil => simp
  | cons e t ih =>
    simp only [List.foldl_cons, List.filter_cons]
    by_cases h : f &&& e.1 ≠ 0
    · rw [ih, if_pos h, if_pos (decide_eq_true h), List.flatMap_cons, List.append_assoc]
    · rw [ih, if_neg h, if_neg (by simpa using h)]

theorem mountOpts_eq_foldl (M : MntFlags) (f : Nat) :
    mountOpts M f =
      (optionTable M).foldl (fun opts e => if f &&& e.1 ≠ 0 then opts ++ 44 :: e.2 else opts)
        (if f &&& M.MNT_RDONLY ≠ 0 then str "ro" else str "rw") := rfl

theorem and_eq_of_differ {f g m : Nat}
    (h : ∀ i, f.testBit i ≠ g.testBit i → m.testBit i = false) : f &&& m = g &&& m := by
  apply Nat.eq_of_testBit_eq
  intro i
  rw [Nat.testBit_and, Nat.testBit_and]
  by_cases hm : m.testBit i = true
  · by_cases hd : f.testBit i = g.testBit i
    · rw [hd]
    · rw [h i hd] at hm
      cases hm
  · simp only [Bool.not_eq_true] at hm
    rw [hm, Bool.and_false, Bool.and_false]

/-! ## Theorems: disk -/

/-- C3: for every flags value the Opts string built in `PartitionsWithContext`
is the base ("ro" when the MNT_RDONLY bit is set, "rw" otherwise) followed by
the concatenation, over the fifteen table entries in declared order, of ","
and the entry's token for exactly the entries whose mask is set; two flags
values that differ only in bits outside MNT_RDONLY and the fifteen masks give
the same string. -/
theorem mountOpts_table (M : MntFlags) :
    (optionTable M).map Prod.fst =
      [M.MNT_SYNCHRONOUS, M.MNT_NOEXEC, M.MNT_NOSUID, M.MNT_UNION, M.MNT_ASYNC, M.MNT_SUIDDIR,
       M.MNT_SOFTDEP, M.MNT_NOSYMFOLLOW, M.MNT_GJOURNAL, M.MNT_MULTILABEL, M.MNT_ACLS,
       M.MNT_NOATIME, M.MNT_NOCLUSTERR, M.MNT_NOCLUSTERW, M.MNT_NFS4ACLS] ∧
    (∀ stat : Statfs, (partitionOf M stat).Opts = mountOptsTable M stat.Flags) ∧
    (∀ s1 s2 : Statfs,
      (∀ i, s1.Flags.testBit i ≠ s2.Flags.testBit i →
        M.MNT_RDONLY.testBit i = false ∧ ∀ e ∈ optionTable M, e.1.testBit i = false) →
      (partitionOf M s1).Opts = (partitionOf M s2).Opts) := by
  have key : ∀ f, mountOpts M f = mountOptsTable M f := by
    intro f
    rw [mountOpts_eq_foldl, foldl_opts]
    rfl
  refine ⟨rfl, fun stat => key stat.Flags, ?_⟩
  intro s1 s2 h
  show mountOpts M s1.Flags = mountOpts M s2.Flags
  rw [key, key]
  have h0 : s1.Flags &&& M.MNT_RDONLY = s2.Flags &&& M.MNT_RDONLY :=
    and_eq_of_differ (fun i hi => (h i hi).1)
  have ht : ∀ e ∈ optionTable M, s1.Flags &&& e.1 = s2.Flags &&& e.1 :=
    fun e he => and_eq_of_differ (fun i hi => (h i hi).2 e he)
  unfold mountOptsTable
  rw [h0]
  congr 2
  apply List.filter_congr
  intro e he
  rw [ht e he]

/-- C3, witness: with the FreeBSD masks, flags `0x10000003` give
"ro,sync,noattime", and so do the flags with the unmatched bit `0x1000` added. -/
theorem mountOpts_table_witness :
    (partitionOf MntFlags.freebsd statfsRoot).Opts = str "ro,sync,noattime" ∧
    statfsRoot.Flags ≠ statfsRootLocal.Flags ∧
    (partitionOf MntFlags.freebsd statfsRoot).Opts =
      (partitionOf MntFlags.freebsd statfsRootLocal).Opts := by
  have h := mountOpts_table MntFlags.freebsd
  refine ⟨?_, by decide, ?_⟩
  · rw [h.2.1 statfsRoot]
    decide
  · apply h.2.2 statfsRoot statfsRootLocal
    intro i hi
    have hi12 : i = 12 := by
      by_contra hne
      apply hi
      show Nat.testBit 0x10000003 i = Nat.testBit (0x10000003 ||| 2 ^ 12) i
      rw [Nat.testBit_or, Nat.testBit_two_pow_of_ne (Ne.symm hne), Bool.or_false]
    subst hi12
    decide

/-! ## Lemmas: the partition loop -/

theorem foldl_partitions (E : DiskEnv) (all : Bool) (fs : List Statfs)
    (acc : List PartitionStat) :
    fs.foldl (partitionsStep E all) acc =
      acc ++ (fs.map (partitionOf E.M)).filter
        (fun d => all || (IsAbs d.Device && E.PathExists d.Device)) := by
  induction fs generalizing acc with
  | nil => simp
  | cons st fs ih =>
    simp only [List.foldl_cons, List.map_cons, List.filter_cons]
    rw [ih]
    unfold partitionsStep
    cases all <;> cases h1 : IsAbs (partitionOf E.M st).Device <;>
      cases h2 : E.PathExists (partitionOf E.M st).Device <;> simp [h1, h2]

theorem partitionOf_zero_dropped (M : MntFlags) :
    IsAbs (partitionOf M Statfs.zero).Device = false := by
  show IsAbs (IntToString Statfs.zero.Mntfromname) = false
  decide

theorem filter_zero_slots (E : DiskEnv) (k : Nat) :
    ((List.replicate k Statfs.zero).map (partitionOf E.M)).filter
      (fun d => false || (IsAbs d.Device && E.PathExists d.Device)) = [] := by
  induction k with
  | zero => rfl
  | succ k ih =>
    simp only [List.replicate_succ, List.map_cons, List.filter_cons, partitionOf_zero_dropped,
      Bool.false_and, Bool.or_self]
    exact ih

/-- C7: with `all = false`, for every phase-one count and every mount table
found by the second call, `PartitionsWithContext` returns no error and exactly
the sub-list, in kernel enumeration order, of the decoded records whose Device
is an absolute path that exists: no other record is returned and no such
record is dropped. -/
theorem Partitions_filtered (E : DiskEnv) (c : Nat) (t : List Statfs)
    (hc : E.count = .ok c) (ht : E.table = .ok t) :
    PartitionsWithContext E false =
      (((t.take c).map (partitionOf E.M)).filter
        (fun d => IsAbs d.Device && E.PathExists d.Device), none) := by
  unfold PartitionsWithContext Getfsstat
  rw [hc, ht]
  simp only
  rw [foldl_partitions, List.map_append, List.filter_append, List.drop_replicate,
    filter_zero_slots, List.append_nil, List.nil_append]
  have hmin : List.take (min t.length (List.replicate c Statfs.zero).length) t = t.take c := by
    rw [List.length_replicate]
    by_cases h : t.length ≤ c
    · rw [Nat.min_eq_left h, List.take_of_length_le (Nat.le_refl _), List.take_of_length_le h]
    · rw [Nat.min_eq_right (by omega)]
  rw [hmin]
  simp only [Bool.false_or]

/-- C7, witness: of the three decoded records only the one on `/dev/ada0p2`
is returned; `devfs` is not absolute and `/dev/da9` does not exist. -/
theorem Partitions_filtered_witness :
    PartitionsWithContext diskEnvSample false =
      ([⟨str "/dev/ada0p2", str "/", str "ufs", str "ro,sync,noattime"⟩], none) := by
  rw [Partitions_filtered diskEnvSample 4 [statfsRoot, statfsDevfs, statfsStale] rfl rfl]
  decide

/-- C8, the code at the failing input: the size probe counts two mounts, the
second call fills one record, `all = true`; two records are returned, the
second built from the buffer slot the second call did not fill. -/
theorem Partitions_all_unfilled_slot :
    PartitionsWithContext diskEnvShrunk true =
      ([⟨str "/dev/ada0p2", str "/", str "ufs", str "ro,sync,noattime"⟩,
        ⟨[], [], [], str "rw"⟩], none) ∧
    (Getfsstat diskEnvShrunk (List.replicate 2 Statfs.zero)).2.1 = 1 ∧
    (PartitionsWithContext diskEnvShrunk true).1.length = 2 := by
  refine ⟨by decide, by decide, by decide⟩

/-! ## Lemmas: the loop of `IOCountersWithContext` -/

theorem sliceFrom_header (r : GoString) (spare : Nat) (h8 : 8 ≤ r.length) :
    (ByteSlice.ofString r spare).sliceFrom 8 =
      some ⟨(r ++ List.replicate spare 0).drop 8, r.length - 8⟩ := by
  unfold ByteSlice.sliceFrom ByteSlice.slice ByteSlice.ofString
  simp only [List.length_append, List.length_replicate]
  rw [if_pos ⟨h8, by omega⟩]

theorem sliceFrom_short (r : GoString) (spare : Nat) (h8 : r.length < 8) :
    (ByteSlice.ofString r spare).sliceFrom 8 = none := by
  unfold ByteSlice.sliceFrom ByteSlice.slice ByteSlice.ofString
  simp only [List.length_append, List.length_replicate]
  rw [if_neg (by omega)]

theorem slice_record (r : GoString) (spare W i : Nat)
    (hi : 8 + (i + 1) * W ≤ r.length) :
    ∃ b, (ByteSlice.mk ((r ++ List.replicate spare 0).drop 8) (r.length - 8)).slice
        (i * W) (i * W + W) = some b ∧ b.bytes = recordAt r W i := by
  have hmul : (i + 1) * W = i * W + W := Nat.succ_mul i W
  refine ⟨⟨((r ++ List.replicate spare 0).drop 8).drop (i * W), i * W + W - i * W⟩, ?_, ?_⟩
  · unfold ByteSlice.slice
    simp only [List.length_drop, List.length_append, List.length_replicate]
    rw [if_pos ⟨by omega, by omega⟩]
  · unfold ByteSlice.bytes recordAt
    simp only [List.drop_drop]
    have e1 : i * W + W - i * W = W := by omega
    have e2 : 8 + i * W ≤ r.length := by omega
    rw [e1, List.drop_append_of_le_length e2, List.take_append_of_le_length]
    simp only [List.length_drop]
    omega

theorem ioCountersLoop_eq (E : DevstatEnv) (names : List GoString) (r : GoString)
    (buf : ByteSlice) (n i : Nat) (m : IOMap)
    (hrec : ∀ j, i ≤ j → j < i + n →
      ∃ b, buf.slice (j * E.sizeOfDevstat) (j * E.sizeOfDevstat + E.sizeOfDevstat) = some b ∧
        b.bytes = recordAt r E.sizeOfDevstat j) :
    ioCountersLoop E names buf n i m = some (ioFold E names r (List.range' i n) m) := by
  induction n generalizing i m with
  | zero => rfl
  | succ n ih =>
    obtain ⟨b, hb, hbytes⟩ := hrec i (Nat.le_refl _) (by omega)
    have hnext : ∀ m', ioCountersLoop E names buf n (i + 1) m' =
        some (ioFold E names r (List.range' (i + 1) n) m') :=
      fun m' => ih (i + 1) m' (fun j h1 h2 => hrec j (by omega) (by omega))
    unfold ioCountersLoop
    rw [hb]
    simp only
    unfold parseDevstat
    rw [hbytes]
    unfold ioFold
    simp only [List.range'_succ, List.foldl_cons]
    unfold ioEntry
    cases hR : E.Read (recordAt r E.sizeOfDevstat i) with
    | error e => exact hnext m
    | ok d =>
      simp only
      split
      · exact hnext m
      · exact hnext _

theorem ioFold_snoc (E : DevstatEnv) (names : List GoString) (r : GoString) (n : Nat) :
    ioFold E names r (List.range' 0 (n + 1)) IOMap.empty =
      match ioEntry E names r n with
      | none => ioFold E names r (List.range' 0 n) IOMap.empty
      | some kv => (ioFold E names r (List.range' 0 n) IOMap.empty).set kv.1 kv.2 := by
  unfold ioFold
  rw [List.range'_1_concat, List.foldl_append]
  simp only [List.foldl_cons, List.foldl_nil, Nat.zero_add]

/-- The map after `n` iterations holds for `k` what the last iteration that
stored under `k` stored. -/
theorem ioFold_last (E : DevstatEnv) (names : List GoString) (r : GoString) (n : Nat)
    (k : GoString) (v : IOCountersStat) :
    ioFold E names r (List.range' 0 n) IOMap.empty k = some v ↔
      ∃ i, i < n ∧ ioEntry E names r i = some (k, v) ∧
        ∀ j, i < j → j < n → ∀ w, ioEntry E names r j ≠ some (k, w) := by
  induction n with
  | zero =>
    constructor
    · intro h; cases h
    · rintro ⟨i, hi, _⟩; omega
  | succ n ih =>
    rw [ioFold_snoc]
    cases he : ioEntry E names r n with
    | none =>
      simp only
      rw [ih]
      constructor
      · rintro ⟨i, hi, h1, h2⟩
        refine ⟨i, by omega, h1, fun j hj1 hj2 w => ?_⟩
        by_cases hjn : j = n
        · subst hjn; rw [he]; exact fun h => Option.noConfusion h
        · exact h2 j hj1 (by omega) w
      · rintro ⟨i, hi, h1, h2⟩
        have hin : i ≠ n := by
          intro e; subst e; rw [he] at h1; cases h1
        exact ⟨i, by omega, h1, fun j hj1 hj2 w => h2 j hj1 (by omega) w⟩
    | some kv =>
      obtain ⟨k0, v0⟩ := kv
      simp only
      simp only [IOMap.set]
      by_cases hk : k = k0
      · subst hk
        rw [if_pos rfl]
        constructor
        · intro h
          simp only [Option.some.injEq] at h
          subst h
          exact ⟨n, by omega, he, fun j hj1 hj2 => by omega⟩
        · rintro ⟨i, hi, h1, h2⟩
          by_cases hin : i = n
          · subst hin; rw [he] at h1
            simp only [Option.some.injEq, Prod.mk.injEq, true_and] at h1
            rw [h1]
          · exact absurd he (h2 n (by omega) (by omega) v0)
      · rw [if_neg hk, ih]
        constructor
        · rintro ⟨i, hi, h1, h2⟩
          refine ⟨i, by omega, h1, fun j hj1 hj2 w => ?_⟩
          by_cases hjn : j = n
          · subst hjn; rw [he]
            intro h
            simp only [Option.some.injEq, Prod.mk.injEq] at h
            exact hk h.1.symm
          · exact h2 j hj1 (by omega) w
        · rintro ⟨i, hi, h1, h2⟩
          have hin : i ≠ n := by
            intro e; subst e; rw [he] at h1
            simp only [Option.some.injEq, Prod.mk.injEq] at h1
            exact hk h1.1.symm
          exact ⟨i, by omega, h1, fun j hj1 hj2 w => h2 j hj1 (by omega) w⟩

/-- A key stored by some iteration is in the map. -/
theorem ioFold_stored (E : DevstatEnv) (names : List GoString) (r : GoString) (n : Nat)
    (k : GoString) (h : ∃ i, i < n ∧ ∃ v, ioEntry E names r i = some (k, v)) :
    ∃ v, ioFold E names r (List.range' 0 n) IOMap.empty k = some v := by
  induction n with
  | zero => obtain ⟨i, hi, _⟩ := h; omega
  | succ n ih =>
    rw [ioFold_snoc]
    cases he : ioEntry E names r n with
    | none =>
      simp only
      apply ih
      obtain ⟨i, hi, v, hv⟩ := h
      have hin : i ≠ n := by
        intro e; subst e; rw [he] at hv; cases hv
      exact ⟨i, by omega, v, hv⟩
    | some kv =>
      obtain ⟨k0, v0⟩ := kv
      simp only
      simp only [IOMap.set]
      by_cases hk : k = k0
      · rw [if_pos hk]; exact ⟨v0, rfl⟩
      · rw [if_neg hk]
        apply ih
        obtain ⟨i, hi, v, hv⟩ := h
        have hin : i ≠ n := by
          intro e; subst e; rw [he] at hv
          simp only [Option.some.injEq, Prod.mk.injEq] at hv
          exact hk hv.1.symm
        exact ⟨i, by omega, v, hv⟩

theorem ioEntry_some (E : DevstatEnv) (names : List GoString) (r : GoString) (i : Nat)
    (k : GoString) (v : IOCountersStat) :
    ioEntry E names r i = some (k, v) ↔
      ∃ d, E.Read (recordAt r E.sizeOfDevstat i) = .ok d ∧ devName d = k ∧
        (names = [] ∨ k ∈ names) ∧ v = ioStatOf E d k := by
  unfold ioEntry
  cases hR : E.Read (recordAt r E.sizeOfDevstat i) with
  | error e =>
    simp only
    constructor
    · intro h; cases h
    · rintro ⟨d, hd, _⟩; cases hd
  | ok d =>
    simp only
    have hfilt : (names.length > 0 ∧ StringsHas names (devName d) = false) ↔
        ¬ (names = [] ∨ devName d ∈ names) := by
      unfold StringsHas
      cases names with
      | nil => simp
      | cons a l => simp
    constructor
    · intro h
      split at h
      · cases h
      · rename_i hn
        simp only [Option.some.injEq, Prod.mk.injEq] at h
        refine ⟨d, rfl, h.1, ?_, ?_⟩
        · rw [← h.1]; exact Classical.not_not.mp (fun c => hn (hfilt.mpr c))
        · rw [← h.1, ← h.2]
    · rintro ⟨d', hd', hk, hn, hv⟩
      simp only [Except.ok.injEq] at hd'
      subst hd'
      rw [if_neg (fun c => hfilt.mp c (hk ▸ hn)), hv, hk]

/-- C4: for every blob in which the records the loop reads lie inside the
buffer, and every filter list, `IOCountersWithContext` returns a nil error and
a map whose keys are exactly the composed names of the records that decode
and, when `names` is non-empty, occur in `names`; a record that fails to
decode stores nothing and later records are still processed; the entry of a
key has that key as Name and the read and write operation and byte counters
of the last record with that composed name. -/
theorem IOCounters_map (E : DevstatEnv) (names : List GoString) (r : GoString)
    (hs : E.sysctl = .ok r) (h8 : 8 ≤ r.length)
    (hin : 8 + devstatCount r.length E.sizeOfDevstat * E.sizeOfDevstat ≤ r.length) :
    ∃ m, IOCountersWithContext E names = Result.ok m ∧
      (∀ k, (∃ v, m k = some v) ↔
        ∃ i d, i < devstatCount r.length E.sizeOfDevstat ∧
          E.Read (recordAt r E.sizeOfDevstat i) = .ok d ∧ devName d = k ∧
          (names = [] ∨ k ∈ names)) ∧
      (∀ k v, m k = some v →
        v.Name = k ∧
        ∃ i d, i < devstatCount r.length E.sizeOfDevstat ∧
          E.Read (recordAt r E.sizeOfDevstat i) = .ok d ∧ devName d = k ∧
          v.ReadCount = d.Operations E.DEVSTAT_READ ∧
          v.WriteCount = d.Operations E.DEVSTAT_WRITE ∧
          v.ReadBytes = d.Bytes E.DEVSTAT_READ ∧
          v.WriteBytes = d.Bytes E.DEVSTAT_WRITE ∧
          ∀ j d', i < j → j < devstatCount r.length E.sizeOfDevstat →
            E.Read (recordAt r E.sizeOfDevstat j) = .ok d' → devName d' ≠ k) := by
  have hloop : ioCountersLoop E names
      ⟨(r ++ List.replicate E.spare 0).drop 8, r.length - 8⟩
      (devstatCount r.length E.sizeOfDevstat) 0 IOMap.empty =
      some (ioFold E names r (List.range' 0 (devstatCount r.length E.sizeOfDevstat))
        IOMap.empty) := by
    apply ioCountersLoop_eq
    intro j _ hj
    apply slice_record
    have : (j + 1) * E.sizeOfDevstat ≤
        devstatCount r.length E.sizeOfDevstat * E.sizeOfDevstat :=
      Nat.mul_le_mul_right _ (by omega)
    omega
  refine ⟨ioFold E names r (List.range' 0 (devstatCount r.length E.sizeOfDevstat))
    IOMap.empty, ?_, ?_, ?_⟩
  · unfold IOCountersWithContext
    rw [hs]
    simp only
    have hlen : (ByteSlice.ofString r E.spare).len = r.length := rfl
    rw [sliceFrom_header r E.spare h8, hlen]
    simp only [hloop]
  · intro k
    constructor
    · rintro ⟨v, hv⟩
      obtain ⟨i, hi, he, _⟩ := (ioFold_last E names r _ k v).mp hv
      obtain ⟨d, hd, hk, hn, _⟩ := (ioEntry_some E names r i k v).mp he
      exact ⟨i, d, hi, hd, hk, hn⟩
    · rintro ⟨i, d, hi, hd, hk, hn⟩
      apply ioFold_stored
      exact ⟨i, hi, ioStatOf E d k, (ioEntry_some E names r i k _).mpr ⟨d, hd, hk, hn, rfl⟩⟩
  · intro k v hv
    obtain ⟨i, hi, he, hlast⟩ := (ioFold_last E names r _ k v).mp hv
    obtain ⟨d, hd, hk, hn, hval⟩ := (ioEntry_some E names r i k v).mp he
    subst hval
    refine ⟨rfl, i, d, hi, hd, hk, rfl, rfl, rfl, rfl, ?_⟩
    intro j d' hij hj hd' hk'
    exact hlast j hij hj (ioStatOf E d' k)
      ((ioEntry_some E names r j k _).mpr ⟨d', hd', hk', hn, rfl⟩)

/-- C4, witness: the blob `devstatBlob` (header, `ada0`, a record that does
not decode, `da1`) with 24-byte records and no filter gives a map with exactly
the entries `ada0` and `da1`. -/
theorem IOCounters_map_witness :
    (∃ m, IOCountersWithContext (devstatEnvOf devstatBlob 0) [] = Result.ok m ∧
      (m (str "ada0")).map (fun v => (v.Name, v.ReadCount, v.WriteCount, v.ReadBytes,
        v.WriteBytes)) = some (str "ada0", 5, 6, 7, 8) ∧
      (m (str "da1")).map (fun v => (v.Name, v.ReadCount, v.WriteCount, v.ReadBytes,
        v.WriteBytes)) = some (str "da1", 1, 2, 3, 4) ∧
      (m (str "cd0")).map (fun v => v.Name) = none) ∧
    (∃ m, IOCountersWithContext (devstatEnvOf devstatBlob 0) [] = Result.ok m ∧
      (∀ k, (∃ v, m k = some v) ↔
        ∃ i d, i < devstatCount devstatBlob.length 24 ∧
          sampleRead (recordAt devstatBlob 24 i) = .ok d ∧ devName d = k ∧
          (([] : List GoString) = [] ∨ k ∈ ([] : List GoString))) ∧
      (∀ k v, m k = some v →
        v.Name = k ∧
        ∃ i d, i < devstatCount devstatBlob.length 24 ∧
          sampleRead (recordAt devstatBlob 24 i) = .ok d ∧ devName d = k ∧
          v.ReadCount = d.Operations 1 ∧ v.WriteCount = d.Operations 2 ∧
          v.ReadBytes = d.Bytes 1 ∧ v.WriteBytes = d.Bytes 2 ∧
          ∀ j d', i < j → j < devstatCount devstatBlob.length 24 →
            sampleRead (recordAt devstatBlob 24 j) = .ok d' → devName d' ≠ k)) :=
  ⟨⟨_, rfl, by decide, by decide, by decide⟩,
    IOCounters_map (devstatEnvOf devstatBlob 0) [] devstatBlob rfl (by decide) (by decide)⟩

/-- C5, the code at the failing input: for a blob of exactly one record width
(24 zero bytes with 24-byte records; equally 288 with 288) the count is
`L / W = 1`, not `(L - 8) / W = 0`; the one iteration reads bytes 8 to 32, past
the 24 bytes of the blob, and stores an entry when the capacity allows the
slice. -/
theorem devstatCount_includes_header :
    devstatCount 24 24 = 1 ∧ (24 - 8) / 24 = 0 ∧
    devstatCount 288 288 = 1 ∧ (288 - 8) / 288 = 0 ∧
    ∃ m, IOCountersWithContext (devstatEnvOf (List.replicate 24 0) 8) [] = Result.ok m ∧
      (m (str "0")).map (fun v => v.Name) = some (str "0") :=
  ⟨by decide, by decide, by decide, by decide, _, rfl, by decide⟩

/-- C6, the code at the failing input: for a blob of 7 bytes the header skip
`buf[8:]` panics, whatever the spare capacity and the filter list; for a blob
of exactly one record width and no spare capacity the record slice panics. -/
theorem IOCounters_short_blob_panics :
    (∀ spare names,
      IOCountersWithContext (devstatEnvOf (List.replicate 7 0) spare) names = Result.panic) ∧
    IOCountersWithContext (devstatEnvOf (List.replicate 24 0) 0) [] = Result.panic := by
  refine ⟨?_, rfl⟩
  intro spare names
  unfold IOCountersWithContext
  show (match (ByteSlice.ofString (List.replicate 7 0) spare).sliceFrom 8 with
    | none => Result.panic
    | some buf =>
      match ioCountersLoop (devstatEnvOf (List.replicate 7 0) spare) names buf
          (devstatCount (ByteSlice.ofString (List.replicate 7 0) spare).len 24) 0
          IOMap.empty with
      | none => Result.panic
      | some ret => Result.ok ret) = Result.panic
  rw [sliceFrom_short _ _ (by decide)]

/-! ## Theorems: mem, continued -/

/-- C11, counterexample: with 8,000,000 bytes of memory and a report of 2000
free and 2000 inactive pages of 4096 bytes, `VirtualMemory` returns a record
with Available = 16,384,000 > Total = 8,000,000. -/
theorem VirtualMemory_available_exceeds_total :
    ∃ r, VirtualMemory memEnvOver = Result.ok r ∧
      r.Total = 8000000 ∧ r.Available = 16384000 ∧ ¬ r.Available ≤ r.Total :=
  ⟨_, rfl, by decide, by decide, by decide⟩

/-- C11, amended: a record returned by `VirtualMemory` satisfies
Available <= Total exactly when (Free + Inactive) mod 2^64 <= Total; in
particular it does whenever Free + Inactive <= Total.  Available is below
2^64 in every case. -/
theorem VirtualMemory_available_le (E : MemEnv) (r : VirtualMemoryStat)
    (h : VirtualMemory E = Result.ok r) :
    (r.Available ≤ r.Total ↔ (r.Free + r.Inactive) % 2 ^ 64 ≤ r.Total) ∧
    (r.Free + r.Inactive ≤ r.Total → r.Available ≤ r.Total) ∧
    r.Available < 2 ^ 64 := by
  obtain ⟨hA, _, _, _, _⟩ := VirtualMemory_ok_fields E r h
  refine ⟨by rw [hA], ?_, ?_⟩
  · intro hle
    rw [hA]
    exact Nat.le_trans (Nat.mod_le _ _) hle
  · rw [hA]
    exact Nat.mod_lt _ (by norm_num)

/-- C11, witness: total 8,000,000 with 1000 free pages of 4096 bytes and no
inactive pages: Free + Inactive = 4,096,000 <= Total and Available <= Total. -/
theorem VirtualMemory_available_le_witness :
    ∃ r, VirtualMemory memEnvSample = Result.ok r ∧
      r.Free + r.Inactive ≤ r.Total ∧ r.Available ≤ r.Total ∧
      (r.Available ≤ r.Total ↔ (r.Free + r.Inactive) % 2 ^ 64 ≤ r.Total) ∧
      r.Available < 2 ^ 64 := by
  have h := VirtualMemory_available_le memEnvSample _ rfl
  exact ⟨_, rfl, by decide, h.2.1 (by decide), h.1, h.2.2⟩

/-- C17: for every record and every output in which no line has, before its
first colon, a text that trims to one of the four recognised keys,
`parseVMStat` returns nil and the record unchanged; for every output
whatsoever the fields Total, Available, Used and UsedPercent are unchanged. -/
theorem parseVMStat_unrecognised (out : GoString) (pagesize : Nat) (vms : VirtualMemoryStat) :
    ((∀ line ∈ Split out 10, ∀ (f : Fld) rest, ¬ KeyLine line f.key rest) →
      parseVMStat out pagesize vms = (vms, none)) ∧
    ((parseVMStat out pagesize vms).1.Total = vms.Total ∧
      (parseVMStat out pagesize vms).1.Available = vms.Available ∧
      (parseVMStat out pagesize vms).1.Used = vms.Used ∧
      (parseVMStat out pagesize vms).1.UsedPercent = vms.UsedPercent) := by
  refine ⟨?_, fold_frame pagesize (Split out 10) (vms, none)⟩
  intro h
  unfold parseVMStat
  apply fold_unchanged
  intro l hl k v hkv
  apply fldOf_none_of_ne
  intro f hk
  obtain ⟨rest, hr⟩ := keyLine_of_lineKV hkv
  rw [hk] at hr
  exact h l hl f rest hr

/-- C17, witness: the report `vmStatOther` (a heading with a colon, a line
without colon, a line with the key "Pages purgeable") leaves the record
`vmsPrior` as it was. -/
theorem parseVMStat_unrecognised_witness :
    parseVMStat vmStatOther 4096 vmsPrior = (vmsPrior, none) := by
  have hlines : Split vmStatOther 10 =
      [str "Mach Virtual Memory Statistics" ++ 58 :: str " (page size of 4096 bytes)",
       str "no colon", str "Pages purgeable" ++ 58 :: str " 12.", []] := by decide
  have c1 : (58 : Nat) ∉ str "Mach Virtual Memory Statistics" := by decide
  have c2 : (58 : Nat) ∉ str "no colon" := by decide
  have c3 : (58 : Nat) ∉ str "Pages purgeable" := by decide
  have c4 : (58 : Nat) ∉ ([] : GoString) := by decide
  apply (parseVMStat_unrecognised vmStatOther 4096 vmsPrior).1
  rw [hlines]
  intro line hl f rest hk
  simp only [List.mem_cons, List.mem_singleton] at hl
  rcases hl with rfl | rfl | rfl | hl
  · have := (keyLine_unique hk c1).2
    revert this; cases f <;> decide
  · exact not_keyLine_of_no_colon c2 hk
  · have := (keyLine_unique hk c3).2
    revert this; cases f <;> decide
  · rcases hl with rfl | hl
    · exact not_keyLine_of_no_colon c4 hk
    · cases hl

/-- C20: for every prior record and every output, if the last line carrying a
recognised key has a value on which unsigned-integer parsing reports a syntax
error, `parseVMStat` leaves that key's field 0, whatever the record held
before and whatever earlier lines with the same key set; and whenever the
last line carrying the key fails to parse, the resulting field is the same
for every prior record: it is never left at its previous value. -/
theorem parseVMStat_failed_overwrites (out : GoString) (pagesize : Nat)
    (vms : VirtualMemoryStat) (l1 : List GoString) (line : GoString) (l2 : List GoString)
    (f : Fld) (v : GoString)
    (hs : Split out 10 = l1 ++ line :: l2) (hkv : lineKV line = some (f.key, v))
    (hl2 : ∀ l ∈ l2, ∀ w, lineKV l ≠ some (f.key, w)) :
    ((ParseUint v).2 = some (Error.num ⟨"ParseUint", v, ErrKind.ErrSyntax⟩) →
      f.get (parseVMStat out pagesize vms).1 = 0) ∧
    ((ParseUint v).2 ≠ none →
      ∀ vms' : VirtualMemoryStat,
        f.get (parseVMStat out pagesize vms').1 = f.get (parseVMStat out pagesize vms).1) := by
  have key : ∀ x : VirtualMemoryStat,
      f.get (parseVMStat out pagesize x).1 = (ParseUint v).1 * pagesize % 2 ^ 64 := by
    intro x
    unfold parseVMStat
    rw [hs]
    exact fold_get_last pagesize f l1 l2 line v _ hkv hl2
  refine ⟨?_, ?_⟩
  · intro he
    rw [key, ParseUint_syntax_zero v _ he rfl]
    simp
  · intro _ vms'
    rw [key, key]

/-- C20, witness: in the report `vmStatMixed` the last line with the key
"Pages free" is "Pages free: x"; the record `vmsPrior` held Free = 4 and the
earlier line "Pages free: 1" set 4096, yet Free is 0 afterwards. -/
theorem parseVMStat_failed_overwrites_witness :
    vmsPrior.Free = 4 ∧
    (parseVMStat (str "Pages free: 1") 4096 vmsPrior).1.Free = 4096 ∧
    (parseVMStat vmStatMixed 4096 vmsPrior).1.Free = 0 ∧
    (parseVMStat vmStatMixed 4096 VirtualMemoryStat.zero).1.Free =
      (parseVMStat vmStatMixed 4096 vmsPrior).1.Free := by
  have h := parseVMStat_failed_overwrites vmStatMixed 4096 vmsPrior
    [str "Pages free: 1"] (str "Pages free: x")
    [str "Pages active: 18446744073709551615", []] Fld.free (str "x")
    (by decide) (by decide) (by
      intro l hl w
      simp only [List.mem_cons, List.mem_singleton] at hl
      rcases hl with rfl | hl
      · have e1 : lineKV (str "Pages active: 18446744073709551615") =
            some (str "Pages active", str "18446744073709551615") := by decide
        rw [e1]
        intro hk
        simp only [Option.some.injEq, Prod.mk.injEq] at hk
        exact absurd hk.1 (by decide)
      · rcases hl with rfl | hl
        · have e2 : lineKV [] = none := by decide
          rw [e2]
          exact fun hk => Option.noConfusion hk
        · cases hl)
  exact ⟨by decide, by decide, h.1 (by decide), h.2 (by decide) VirtualMemoryStat.zero⟩

/-! ## Lemmas: tokens of the option string -/

theorem mountOpts_eq_table (M : MntFlags) (f : Nat) : mountOpts M f = mountOptsTable M f := by
  rw [mountOpts_eq_foldl, foldl_opts]
  rfl

theorem Split_tokens (toks : List GoString) (base : GoString) (hb : (44 : Nat) ∉ base)
    (ht : ∀ t ∈ toks, (44 : Nat) ∉ t) :
    Split (base ++ toks.flatMap (fun t => 44 :: t)) 44 = base :: toks := by
  induction toks generalizing base with
  | nil =>
    simp only [List.flatMap_nil, List.append_nil]
    exact Split_no_sep base 44 hb
  | cons t ts ih =>
    simp only [List.flatMap_cons, List.cons_append]
    rw [Split_at_sep base _ 44 hb, ih t (ht t (by simp)) (fun x hx => ht x (by simp [hx]))]

theorem optionTable_no_comma (M : MntFlags) : ∀ e ∈ optionTable M, (44 : Nat) ∉ e.2 := by
  intro e he
  simp only [optionTable, List.mem_cons, List.mem_singleton, List.mem_nil_iff, or_false] at he
  rcases he with h | h | h | h | h | h | h | h | h | h | h | h | h | h | h <;>
    (rw [h]; show (44 : Nat) ∉ str _; decide)

/-- The tokens of the option string: the base, then the tokens of the table
entries whose mask is set. -/
theorem optTokens_mountOpts (M : MntFlags) (f : Nat) :
    optTokens (mountOpts M f) =
      (if f &&& M.MNT_RDONLY ≠ 0 then str "ro" else str "rw") ::
        ((optionTable M).filter (fun e => decide (f &&& e.1 ≠ 0))).map Prod.snd := by
  unfold optTokens
  rw [mountOpts_eq_table]
  unfold mountOptsTable
  have hfm : ∀ l : List (Nat × GoString),
      l.flatMap (fun e => 44 :: e.2) = (l.map Prod.snd).flatMap (fun t => 44 :: t) := by
    intro l
    rw [List.flatMap_map]
  rw [hfm]
  apply Split_tokens
  · split <;> decide
  · intro t ht
    obtain ⟨e, he, rfl⟩ := List.mem_map.mp ht
    exact optionTable_no_comma M e (List.mem_filter.mp he).1

theorem and_ne_zero_of_subset {f g m : Nat} (h : ∀ i, f.testBit i = true → g.testBit i = true)
    (hf : f &&& m ≠ 0) : g &&& m ≠ 0 := by
  obtain ⟨i, hi⟩ := Nat.ne_zero_implies_bit_true hf
  rw [Nat.testBit_and, Bool.and_eq_true] at hi
  intro hz
  have : (g &&& m).testBit i = true := by
    rw [Nat.testBit_and, Bool.and_eq_true]
    exact ⟨h i hi.1, hi.2⟩
  rw [hz, Nat.zero_testBit] at this
  cases this

/-! ## Theorems: disk, continued -/

/-- C12, counterexample: with the FreeBSD masks, F1 = 0 and F2 = MNT_RDONLY
(every bit of F1 is set in F2) give the token lists ["rw"] and ["ro"]; the
first is not a sub-sequence of the second. -/
theorem optTokens_base_not_stable :
    (∀ i, Nat.testBit 0 i = true → Nat.testBit MntFlags.freebsd.MNT_RDONLY i = true) ∧
    optTokens (mountOpts MntFlags.freebsd 0) = [str "rw"] ∧
    optTokens (mountOpts MntFlags.freebsd MntFlags.freebsd.MNT_RDONLY) = [str "ro"] ∧
    ¬ List.Sublist (optTokens (mountOpts MntFlags.freebsd 0))
      (optTokens (mountOpts MntFlags.freebsd MntFlags.freebsd.MNT_RDONLY)) := by
  refine ⟨?_, by decide, by decide, by decide⟩
  intro i hi
  rw [Nat.zero_testBit] at hi
  cases hi

/-- C12, amended: for all flags F1 and F2 such that every bit set in F1 is set
in F2, the tokens after the leading "rw"/"ro" token of the option string of F1
are a sub-sequence of those of F2; the whole token list, leading token
included, is a sub-sequence when F1 has the MNT_RDONLY bit whenever F2 has it. -/
theorem optTokens_order_stable (M : MntFlags) (F1 F2 : Nat)
    (h : ∀ i, F1.testBit i = true → F2.testBit i = true) :
    List.Sublist (optTokens (mountOpts M F1)).tail (optTokens (mountOpts M F2)).tail ∧
    ((F2 &&& M.MNT_RDONLY ≠ 0 → F1 &&& M.MNT_RDONLY ≠ 0) →
      List.Sublist (optTokens (mountOpts M F1)) (optTokens (mountOpts M F2))) := by
  have hsub : List.Sublist
      (((optionTable M).filter (fun e => decide (F1 &&& e.1 ≠ 0))).map Prod.snd)
      (((optionTable M).filter (fun e => decide (F2 &&& e.1 ≠ 0))).map Prod.snd) := by
    apply List.Sublist.map
    apply List.monotone_filter_right
    intro e he
    simp only [decide_eq_true_eq] at he ⊢
    exact and_ne_zero_of_subset h he
  rw [optTokens_mountOpts, optTokens_mountOpts]
  refine ⟨hsub, ?_⟩
  intro hro
  have hbase : (if F1 &&& M.MNT_RDONLY ≠ 0 then str "ro" else str "rw") =
      (if F2 &&& M.MNT_RDONLY ≠ 0 then str "ro" else str "rw") := by
    by_cases h2 : F2 &&& M.MNT_RDONLY ≠ 0
    · rw [if_pos h2, if_pos (hro h2)]
    · have h1 : ¬ (F1 &&& M.MNT_RDONLY ≠ 0) := fun c => h2 (and_ne_zero_of_subset h c)
      rw [if_neg h2, if_neg h1]
  rw [hbase]
  exact hsub.cons_cons _

/-- C12, witness: with the FreeBSD masks, flags `0x10000000` give the tokens
"rw", "noattime" and flags `0x10000003` give "ro", "sync", "noattime"; flags
`0x3` give "ro", "sync", a sub-sequence of the latter. -/
theorem optTokens_order_stable_witness :
    optTokens (mountOpts MntFlags.freebsd 0x10000000) = [str "rw", str "noattime"] ∧
    optTokens (mountOpts MntFlags.freebsd 0x10000003) =
      [str "ro", str "sync", str "noattime"] ∧
    List.Sublist (optTokens (mountOpts MntFlags.freebsd 0x10000000)).tail
      (optTokens (mountOpts MntFlags.freebsd 0x10000003)).tail ∧
    List.Sublist (optTokens (mountOpts MntFlags.freebsd 0x3))
      (optTokens (mountOpts MntFlags.freebsd 0x10000003)) := by
  have e1 : (0x10000003 : Nat) = 0x10000000 ||| 0x3 := by decide
  have h1 : ∀ i, Nat.testBit 0x10000000 i = true → Nat.testBit 0x10000003 i = true := by
    intro i hi
    rw [e1, Nat.testBit_or, hi, Bool.true_or]
  have h2 : ∀ i, Nat.testBit 0x3 i = true → Nat.testBit 0x10000003 i = true := by
    intro i hi
    rw [e1, Nat.testBit_or, hi, Bool.or_true]
  exact ⟨by decide, by decide,
    (optTokens_order_stable MntFlags.freebsd 0x10000000 0x10000003 h1).1,
    (optTokens_order_stable MntFlags.freebsd 0x3 0x10000003 h2).2 (fun _ => by decide)⟩

/-- C19, the code at the failing input: with the FreeBSD masks, flags with
MNT_GJOURNAL, MNT_NOATIME and MNT_NOCLUSTERR set give the option string
"rw,gjounalc,noattime,nocluster"; its tokens are not "gjournal", "noatime"
and "noclusterr". -/
theorem mountOpts_misspelled_tokens :
    statfsJournal.Flags =
      MntFlags.freebsd.MNT_GJOURNAL ||| MntFlags.freebsd.MNT_NOATIME |||
        MntFlags.freebsd.MNT_NOCLUSTERR ∧
    (partitionOf MntFlags.freebsd statfsJournal).Opts = str "rw,gjounalc,noattime,nocluster" ∧
    optTokens (partitionOf MntFlags.freebsd statfsJournal).Opts =
      [str "rw", str "gjounalc", str "noattime", str "nocluster"] ∧
    str "gjournal" ∉ optTokens (partitionOf MntFlags.freebsd statfsJournal).Opts ∧
    str "noatime" ∉ optTokens (partitionOf MntFlags.freebsd statfsJournal).Opts ∧
    str "noclusterr" ∉ optTokens (partitionOf MntFlags.freebsd statfsJournal).Opts := by
  refine ⟨by decide, by decide, by decide, by decide, by decide, by decide⟩

theorem ioCountersSlices_eq (E : DevstatEnv) (r : GoString) (buf : ByteSlice) (n i : Nat)
    (hrec : ∀ j, i ≤ j → j < i + n →
      ∃ b, buf.slice (j * E.sizeOfDevstat) (j * E.sizeOfDevstat + E.sizeOfDevstat) = some b ∧
        b.bytes = recordAt r E.sizeOfDevstat j) :
    ioCountersSlices E buf n i =
      some ((List.range' i n).map (recordAt r E.sizeOfDevstat)) := by
  induction n generalizing i with
  | zero => rfl
  | succ n ih =>
    obtain ⟨b, hb, hbytes⟩ := hrec i (Nat.le_refl _) (by omega)
    unfold ioCountersSlices
    rw [hb]
    simp only
    rw [ih (i + 1) (fun j h1 h2 => hrec j (by omega) (by omega)), hbytes]
    simp only [Option.map_some', List.range'_succ, List.map_cons]

theorem devstatCount_exact (n W : Nat) (hW : 8 < W) : devstatCount (8 + n * W) W = n := by
  unfold devstatCount
  rw [Nat.add_mul_div_right 8 n (by omega), Nat.div_eq_of_lt hW, Nat.zero_add]

/-- The loop of `IOCountersWithContext` hands each slice it takes to the
decoder and folds the outcome into the map: its result is the fold of `ioApply`
over the slices of `ioCountersSlices`, and it panics exactly when they do. -/
theorem ioCountersLoop_slices (E : DevstatEnv) (names : List GoString) (buf : ByteSlice)
    (n i : Nat) (m : IOMap) :
    ioCountersLoop E names buf n i m =
      (ioCountersSlices E buf n i).map (fun slices => slices.foldl (ioApply E names) m) := by
  induction n generalizing i m with
  | zero => rfl
  | succ n ih =>
    unfold ioCountersLoop ioCountersSlices
    cases hb : buf.slice (i * E.sizeOfDevstat) (i * E.sizeOfDevstat + E.sizeOfDevstat) with
    | none => rfl
    | some b =>
      simp only
      have hstep : ∀ m', ioCountersLoop E names buf n (i + 1) m' =
          (ioCountersSlices E buf n (i + 1)).map
            (fun slices => slices.foldl (ioApply E names) m') := fun m' => ih (i + 1) m'
      have hcons : ((ioCountersSlices E buf n (i + 1)).map (fun rest => b.bytes :: rest)).map
            (fun slices => slices.foldl (ioApply E names) m) =
          (ioCountersSlices E buf n (i + 1)).map
            (fun slices => slices.foldl (ioApply E names) (ioApply E names m b.bytes)) := by
        cases ioCountersSlices E buf n (i + 1) with
        | none => rfl
        | some sl => rfl
      rw [hcons]
      unfold parseDevstat ioApply
      cases hR : E.Read b.bytes with
      | error e => exact hstep m
      | ok d =>
        simp only
        split
        · exact hstep m
        · exact hstep _

/-- The function `IOCountersWithContext` in terms of the slices it hands to the
decoder: after a successful sysctl read it panics exactly when taking the
slices panics, and otherwise returns the fold of `ioApply` over them. -/
theorem IOCounters_of_decoded (E : DevstatEnv) (names : List GoString) (r : GoString)
    (hs : E.sysctl = .ok r) :
    IOCountersWithContext E names =
      match IOCountersDecoded E with
      | none => Result.panic
      | some slices => Result.ok (slices.foldl (ioApply E names) IOMap.empty) := by
  unfold IOCountersWithContext IOCountersDecoded
  rw [hs]
  simp only
  cases (ByteSlice.ofString r E.spare).sliceFrom 8 with
  | none => rfl
  | some buf =>
    simp only
    rw [ioCountersLoop_slices]
    cases ioCountersSlices E buf
      (devstatCount (ByteSlice.ofString r E.spare).len E.sizeOfDevstat) 0 with
    | none => rfl
    | some sl => rfl

/-- C16: for every n and record width W = sizeOfDevstat > 8, a blob of exactly
8 + n * W bytes gives count n; `IOCountersWithContext` returns (without panic)
the map obtained by decoding exactly n records in order, the i-th from bytes
[8 + i*W, 8 + (i+1)*W) of the blob, each of W bytes, and storing the outcome of
each; these n slices are all the decoder is given, so no header byte reaches
it. -/
theorem IOCounters_header_excluded (E : DevstatEnv) (names : List GoString) (r : GoString)
    (n : Nat) (hs : E.sysctl = .ok r) (hW : 8 < E.sizeOfDevstat)
    (hL : r.length = 8 + n * E.sizeOfDevstat) :
    devstatCount r.length E.sizeOfDevstat = n ∧
    IOCountersWithContext E names =
      Result.ok
        (((List.range n).map
            (fun i => (r.drop (8 + i * E.sizeOfDevstat)).take E.sizeOfDevstat)).foldl
          (ioApply E names) IOMap.empty) ∧
    IOCountersDecoded E =
      some ((List.range n).map
        (fun i => (r.drop (8 + i * E.sizeOfDevstat)).take E.sizeOfDevstat)) ∧
    (∀ i, i < n →
      ((r.drop (8 + i * E.sizeOfDevstat)).take E.sizeOfDevstat).length = E.sizeOfDevstat) := by
  have hc : devstatCount r.length E.sizeOfDevstat = n := by
    rw [hL]; exact devstatCount_exact n _ hW
  have h8 : 8 ≤ r.length := by omega
  have hrec : ∀ j, 0 ≤ j → j < 0 + n →
      ∃ b, (ByteSlice.mk ((r ++ List.replicate E.spare 0).drop 8) (r.length - 8)).slice
          (j * E.sizeOfDevstat) (j * E.sizeOfDevstat + E.sizeOfDevstat) = some b ∧
        b.bytes = recordAt r E.sizeOfDevstat j := by
    intro j _ hj
    apply slice_record
    have : (j + 1) * E.sizeOfDevstat ≤ n * E.sizeOfDevstat :=
      Nat.mul_le_mul_right _ (by omega)
    omega
  have hlen : (ByteSlice.ofString r E.spare).len = r.length := rfl
  have hdec : IOCountersDecoded E =
      some ((List.range n).map
        (fun i => (r.drop (8 + i * E.sizeOfDevstat)).take E.sizeOfDevstat)) := by
    unfold IOCountersDecoded
    rw [hs]
    simp only
    rw [sliceFrom_header r E.spare h8, hlen, hc]
    simp only
    rw [ioCountersSlices_eq E r _ n 0 hrec, List.range_eq_range']
    rfl
  refine ⟨hc, ?_, hdec, ?_⟩
  · rw [IOCounters_of_decoded E names r hs, hdec]
  · intro i hi
    have : (i + 1) * E.sizeOfDevstat ≤ n * E.sizeOfDevstat :=
      Nat.mul_le_mul_right _ (by omega)
    have hmul : (i + 1) * E.sizeOfDevstat = i * E.sizeOfDevstat + E.sizeOfDevstat :=
      Nat.succ_mul i _
    rw [List.length_take, List.length_drop]
    omega

/-- C16, witness: the blob `devstatBlob` of 8 + 3 * 24 bytes with 24-byte
records gives count 3; the map returned is the fold of the decoder over the
three records after the header, which holds `ada0` and `da1`, and the three
records are all the decoder is given. -/
theorem IOCounters_header_excluded_witness :
    devstatBlob.length = 8 + 3 * 24 ∧
    devstatCount devstatBlob.length 24 = 3 ∧
    IOCountersWithContext (devstatEnvOf devstatBlob 0) [] =
      Result.ok
        ([sampleRecord (str "ada") 0 5 6 7 8, 255 :: List.replicate 23 0,
          sampleRecord (str "da") 1 1 2 3 4].foldl
          (ioApply (devstatEnvOf devstatBlob 0) []) IOMap.empty) ∧
    IOCountersDecoded (devstatEnvOf devstatBlob 0) =
      some [sampleRecord (str "ada") 0 5 6 7 8, 255 :: List.replicate 23 0,
        sampleRecord (str "da") 1 1 2 3 4] ∧
    (∃ m, IOCountersWithContext (devstatEnvOf devstatBlob 0) [] = Result.ok m ∧
      (m (str "ada0")).map (fun v => v.ReadCount) = some 5 ∧
      (m (str "da1")).map (fun v => v.ReadCount) = some 1) := by
  have h := IOCounters_header_excluded (devstatEnvOf devstatBlob 0) [] devstatBlob 3 rfl
    (by decide) (by decide)
  have hrecs : (List.range 3).map
      (fun i => (devstatBlob.drop (8 + i * (devstatEnvOf devstatBlob 0).sizeOfDevstat)).take
        (devstatEnvOf devstatBlob 0).sizeOfDevstat) =
      [sampleRecord (str "ada") 0 5 6 7 8, 255 :: List.replicate 23 0,
        sampleRecord (str "da") 1 1 2 3 4] := by decide
  refine ⟨by decide, h.1, ?_, ?_, ⟨_, h.2.1, by decide, by decide⟩⟩
  · rw [h.2.1, hrecs]
  · rw [h.2.2.1, hrecs]

/-- C18: the literal BINTIME_SCALE is, as an exact rational number, 1 / 2^64;
hence in exact arithmetic the expression of `Bintime.Compute` is
sec + frac / 2^64 for every sec and every frac. -/
theorem BINTIME_SCALE_exact :
    BINTIME_SCALE = 1 / 2 ^ 64 ∧
    ∀ b : Bintime, b.ComputeExact = (b.Sec : ℚ) + (b.Frac : ℚ) / 2 ^ 64 := by
  have h : BINTIME_SCALE = 1 / 2 ^ 64 := by
    unfold BINTIME_SCALE
    norm_num
  refine ⟨h, ?_⟩
  intro b
  unfold Bintime.ComputeExact
  rw [h, mul_one_div]

/-! ## Lemmas: the serial number -/

theorem Split_singleton {s w : GoString} {sep : Nat} (h : Split s sep = [w]) :
    s = w ∧ sep ∉ s := by
  rcases first_sep s sep with hno | ⟨a, rest, hs, ha⟩
  · rw [Split_no_sep s sep hno] at h
    simp only [List.cons.injEq, and_true] at h
    exact ⟨h, hno⟩
  · rw [hs, Split_at_sep a rest sep ha] at h
    obtain ⟨f1, fs, hf⟩ := Split_head rest sep
    rw [hf] at h
    simp only [List.cons.injEq, and_false, reduceCtorEq] at h

theorem serialKey_eq : str "E:ID_SERIAL=" = str "E:ID_SERIAL" ++ [61] := by decide

theorem serialKey_no_eq : (61 : Nat) ∉ str "E:ID_SERIAL" := by decide

/-- The loop body returns `v` exactly on the line `E:ID_SERIAL=v` with no `=`
in `v`. -/
theorem udevSerial_some (l v : GoString) :
    udevSerial l = some v ↔ l = str "E:ID_SERIAL=" ++ v ∧ (61 : Nat) ∉ v := by
  constructor
  · intro h
    unfold udevSerial at h
    rcases first_sep l 61 with hno | ⟨a, rest, hl, ha⟩
    · rw [Split_no_sep l 61 hno] at h
      cases h
    · rw [hl, Split_at_sep a rest 61 ha] at h
      obtain ⟨f1, fs, hf⟩ := Split_head rest 61
      rw [hf] at h
      cases fs with
      | nil =>
        simp only at h
        split at h
        · rename_i hk
          simp only [Option.some.injEq] at h
          obtain ⟨hr, hno⟩ := Split_singleton hf
          rw [hl, hk, serialKey_eq, ← h, hr]
          exact ⟨by simp, by rw [← hr]; exact hno⟩
        · cases h
      | cons f2 fs => cases h
  · rintro ⟨hl, hv⟩
    unfold udevSerial
    rw [hl, serialKey_eq, List.append_assoc, List.singleton_append,
      Split_at_sep _ v 61 serialKey_no_eq, Split_no_sep v 61 hv]
    simp

theorem findSome_first {α β : Type} (f : α → Option β) (pre : List α) (x : α) (post : List α)
    (b : β) (hpre : ∀ a ∈ pre, f a = none) (hx : f x = some b) :
    (pre ++ x :: post).findSome? f = some b := by
  induction pre with
  | nil => simp [List.findSome?, hx]
  | cons a pre ih =>
    simp only [List.cons_append, List.findSome?, hpre a (by simp)]
    exact ih (fun y hy => hpre y (by simp [hy]))

theorem findSome_none {α β : Type} (f : α → Option β) (l : List α)
    (h : ∀ a ∈ l, f a = none) : l.findSome? f = none := by
  induction l with
  | nil => rfl
  | cons a l ih =>
    simp only [List.findSome?, h a (by simp)]
    exact ih (fun y hy => h y (by simp [hy]))

theorem serial_udev_found (E : SerialEnv) (name : GoString) (rdev : Nat) (data v : GoString)
    (hst : E.stat name = .ok rdev)
    (hrd : E.readFile (udevDataPath (E.Major rdev) (E.Minor rdev)) = (data, none))
    (hf : (scanLines data).findSome? udevSerial = some v) :
    GetDiskSerialNumberWithContext E name = v := by
  unfold GetDiskSerialNumberWithContext
  rw [hst]
  simp only [hrd, hf]

theorem serial_fallback (E : SerialEnv) (name : GoString) (rdev : Nat)
    (hst : E.stat name = .ok rdev)
    (hu : (E.readFile (udevDataPath (E.Major rdev) (E.Minor rdev))).2 ≠ none ∨
      (scanLines (E.readFile (udevDataPath (E.Major rdev) (E.Minor rdev))).1).findSome?
        udevSerial = none) :
    GetDiskSerialNumberWithContext E name =
      if ((E.readFile (devicePath (E.Major rdev) ++ str "/model")).1.length > 0 ∧
          (E.readFile (devicePath (E.Major rdev) ++ str "/serial")).1.length > 0) then
        (E.readFile (devicePath (E.Major rdev) ++ str "/model")).1 ++ str "_" ++
          (E.readFile (devicePath (E.Major rdev) ++ str "/serial")).1
      else str "" := by
  unfold GetDiskSerialNumberWithContext
  rw [hst]
  simp only
  have hnone : (match E.readFile (udevDataPath (E.Major rdev) (E.Minor rdev)) with
      | (udevdata, none) => (scanLines udevdata).findSome? udevSerial
      | (_, some _) => none) = none := by
    rcases hu with hu | hu
    · split
      · rename_i d heq
        rw [heq] at hu
        exact absurd rfl hu
      · rfl
    · split
      · rename_i d heq
        rw [heq] at hu
        exact hu
      · rfl
  rw [hnone]

theorem dropCR_cases (seg : GoString) : dropCR seg = seg ∨ seg = dropCR seg ++ [13] := by
  unfold dropCR
  split
  · rename_i h
    right
    have hne : seg ≠ [] := by
      intro e; rw [e] at h; cases h
    have h2 := List.dropLast_append_getLast hne
    have h3 : seg.getLast hne = 13 := by
      rw [List.getLast?_eq_getLast seg hne] at h
      simpa using h
    rw [h3] at h2
    exact h2.symm
  · left; rfl

theorem scanLines_subset (data l : GoString) (h : l ∈ scanLines data) :
    ∃ seg ∈ Split data 10, l = dropCR seg := by
  unfold scanLines at h
  simp only at h
  obtain ⟨seg, hseg, rfl⟩ := List.mem_map.mp h
  refine ⟨seg, ?_, rfl⟩
  have h1 := (List.takeWhile_sublist _).subset hseg
  split at h1
  · exact List.mem_of_mem_dropLast h1
  · exact h1

theorem scanLines_long (big rest : GoString) (hb : (10 : Nat) ∉ big)
    (hlen : maxScanTokenSize ≤ big.length) : scanLines (big ++ 10 :: rest) = [] := by
  unfold scanLines
  rw [Split_at_sep big rest 10 hb]
  obtain ⟨f1, fs, hf⟩ := Split_head rest 10
  rw [hf]
  have hp : decide (big.length < maxScanTokenSize) = false := by
    simp only [decide_eq_false_iff_not]; omega
  simp only [List.dropLast_cons₂]
  split <;> simp [List.takeWhile, hp]

/-! ## Theorems: the serial number -/

/-- C13, counterexample: the udev data file "E:ID_SERIAL=AB=CD\n" has the line
`E:ID_SERIAL=AB=CD`, whose value is "AB=CD", yet with sysfs model "WDC\n" and
serial "XYZ\n" the function returns "WDC\n_XYZ\n"; and a udev file in which a
line of 65536 bytes precedes the line `E:ID_SERIAL=ABC123` gives "" when the
sysfs files are missing. -/
theorem serial_udev_line_skipped :
    Split (str "E:ID_SERIAL=AB=CD\n") 10 = [str "E:ID_SERIAL=" ++ str "AB=CD", []] ∧
    GetDiskSerialNumberWithContext
      (serialEnvOf (some (str "E:ID_SERIAL=AB=CD\n")) (some (str "WDC\n")) (some (str "XYZ\n")))
      (str "/dev/sda") = str "WDC\n_XYZ\n" ∧
    str "WDC\n_XYZ\n" ≠ str "AB=CD" ∧
    GetDiskSerialNumberWithContext (serialEnvOf (some udevLongLine) none none)
      (str "/dev/sda") = str "" := by
  refine ⟨by decide, by decide, by decide, ?_⟩
  have hrd : (serialEnvOf (some udevLongLine) none none).readFile
      (udevDataPath ((serialEnvOf (some udevLongLine) none none).Major 0x800)
        ((serialEnvOf (some udevLongLine) none none).Minor 0x800)) = (udevLongLine, none) := rfl
  have hscan : scanLines udevLongLine = [] := by
    unfold udevLongLine
    apply scanLines_long
    · intro hm
      have := List.eq_of_mem_replicate hm
      omega
    · rw [List.length_replicate]
      decide
  rw [serial_fallback (serialEnvOf (some udevLongLine) none none) (str "/dev/sda") 0x800 rfl
    (Or.inr (by rw [hrd, hscan]; rfl))]
  decide

/-- C13, amended: for every device whose stat succeeds and every udev data
file that is read without error, if the lines the scanner yields contain a
line `E:ID_SERIAL=` followed by a value without "=", and no earlier line is of
that form, the function returns that value, whatever the sysfs files
contain. -/
theorem serial_from_udev (E : SerialEnv) (name : GoString) (rdev : Nat)
    (data : GoString) (pre : List GoString) (v : GoString) (post : List GoString)
    (hst : E.stat name = .ok rdev)
    (hrd : E.readFile (udevDataPath (E.Major rdev) (E.Minor rdev)) = (data, none))
    (hl : scanLines data = pre ++ (str "E:ID_SERIAL=" ++ v) :: post)
    (hv : (61 : Nat) ∉ v)
    (hpre : ∀ l ∈ pre, ∀ w, (61 : Nat) ∉ w → l ≠ str "E:ID_SERIAL=" ++ w) :
    GetDiskSerialNumberWithContext E name = v := by
  apply serial_udev_found E name rdev data v hst hrd
  rw [hl]
  apply findSome_first
  · intro l hlm
    cases hu : udevSerial l with
    | none => rfl
    | some w =>
      obtain ⟨h1, h2⟩ := (udevSerial_some l w).mp hu
      exact absurd h1 (hpre l hlm w h2)
  · exact (udevSerial_some _ v).mpr ⟨rfl, hv⟩

/-- C13, witness: the udev data file of device 8:0 with the lines `S:disk`,
`E:ID_SERIAL=ABC123`, `E:X=1` gives "ABC123", although sysfs holds a model and
a serial. -/
theorem serial_from_udev_witness :
    udevDataPath 8 0 = str "/run/udev/data/b8:0" ∧
    GetDiskSerialNumberWithContext
      (serialEnvOf (some (str "S:disk\nE:ID_SERIAL=ABC123\nE:X=1\n")) (some (str "WDC\n"))
        (some (str "XYZ\n")))
      (str "/dev/sda") = str "ABC123" :=
  ⟨by decide,
    serial_from_udev
      (serialEnvOf (some (str "S:disk\nE:ID_SERIAL=ABC123\nE:X=1\n")) (some (str "WDC\n"))
        (some (str "XYZ\n")))
      (str "/dev/sda") 0x800 (str "S:disk\nE:ID_SERIAL=ABC123\nE:X=1\n") [str "S:disk"]
      (str "ABC123") [str "E:X=1"] rfl rfl (by decide) (by decide) (by
        intro l hl w _ h
        simp only [List.mem_singleton] at hl
        rw [hl] at h
        have e1 : str "E:ID_SERIAL=" = 69 :: str ":ID_SERIAL=" := by decide
        have e2 : str "S:disk" = 83 :: str ":disk" := by decide
        rw [e1, e2, List.cons_append, List.cons.injEq] at h
        exact absurd h.1 (by decide))⟩

/-- C14: the function returns "" when the stat call fails; when stat succeeds
and the udev data file cannot be read or has no line starting with
`E:ID_SERIAL=`, it returns the raw contents of the sysfs model file, "_" and
the raw contents of the sysfs serial file if both are non-empty, and "" if
either is missing or empty. -/
theorem serial_fallback_chain (E : SerialEnv) (name : GoString) :
    ((∃ e, E.stat name = .error e) → GetDiskSerialNumberWithContext E name = str "") ∧
    (∀ rdev, E.stat name = .ok rdev →
      ((E.readFile (udevDataPath (E.Major rdev) (E.Minor rdev))).2 ≠ none ∨
        ∀ seg ∈ Split (E.readFile (udevDataPath (E.Major rdev) (E.Minor rdev))).1 10,
          ∀ w, seg ≠ str "E:ID_SERIAL=" ++ w) →
      ((E.readFile (devicePath (E.Major rdev) ++ str "/model")).1 ≠ [] →
        (E.readFile (devicePath (E.Major rdev) ++ str "/serial")).1 ≠ [] →
        GetDiskSerialNumberWithContext E name =
          (E.readFile (devicePath (E.Major rdev) ++ str "/model")).1 ++ str "_" ++
            (E.readFile (devicePath (E.Major rdev) ++ str "/serial")).1) ∧
      (((E.readFile (devicePath (E.Major rdev) ++ str "/model")).1 = [] ∨
          (E.readFile (devicePath (E.Major rdev) ++ str "/serial")).1 = []) →
        GetDiskSerialNumberWithContext E name = str "")) := by
  refine ⟨?_, ?_⟩
  · rintro ⟨e, he⟩
    unfold GetDiskSerialNumberWithContext
    rw [he]
  · intro rdev hst hu
    have hfb := serial_fallback E name rdev hst (by
      rcases hu with hu | hu
      · exact Or.inl hu
      · right
        apply findSome_none
        intro l hl
        cases hs : udevSerial l with
        | none => rfl
        | some w =>
          obtain ⟨h1, _⟩ := (udevSerial_some l w).mp hs
          obtain ⟨seg, hseg, hd⟩ := scanLines_subset _ l hl
          rcases dropCR_cases seg with hc | hc
          · exact absurd (by rw [← hc, ← hd, h1]) (hu seg hseg w)
          · exact absurd (by rw [hc, ← hd, h1, List.append_assoc]) (hu seg hseg (w ++ [13])))
    refine ⟨?_, ?_⟩
    · intro hm hsr
      rw [hfb, if_pos ⟨List.length_pos.mpr hm, List.length_pos.mpr hsr⟩]
    · intro hor
      rw [hfb, if_neg]
      rintro ⟨h1, h2⟩
      rcases hor with h | h
      · rw [h] at h1; exact absurd h1 (by decide)
      · rw [h] at h2; exact absurd h2 (by decide)

/-- C14, witness: without udev data file, model "WDC\n" and serial "XYZ\n"
give "WDC\n_XYZ\n"; with the serial file missing the result is ""; for a
device whose stat fails the result is "". -/
theorem serial_fallback_chain_witness :
    GetDiskSerialNumberWithContext (serialEnvOf none (some (str "WDC\n")) (some (str "XYZ\n")))
      (str "/dev/sda") = str "WDC\n_XYZ\n" ∧
    GetDiskSerialNumberWithContext (serialEnvOf none (some (str "WDC\n")) none)
      (str "/dev/sda") = str "" ∧
    GetDiskSerialNumberWithContext (serialEnvOf none (some (str "WDC\n")) (some (str "XYZ\n")))
      (str "/dev/sdb") = str "" := by
  have h1 := (serial_fallback_chain
    (serialEnvOf none (some (str "WDC\n")) (some (str "XYZ\n"))) (str "/dev/sda")).2
    0x800 rfl (Or.inl (by decide))
  have h2 := (serial_fallback_chain
    (serialEnvOf none (some (str "WDC\n")) none) (str "/dev/sda")).2
    0x800 rfl (Or.inl (by decide))
  have h3 := (serial_fallback_chain
    (serialEnvOf none (some (str "WDC\n")) (some (str "XYZ\n"))) (str "/dev/sdb")).1
    ⟨Error.os 2, rfl⟩
  refine ⟨?_, h2.2 (Or.inr (by decide)), h3⟩
  rw [h1.1 (by decide) (by decide)]
  decide

end Gopsutil
